import Mathlib

/-!
# NodeSimulator controller: one reconcile pass

A shallow embedding of `pkg/controllers/node/node_controller.go`
(`Reconcile`, `SyncFakeNode` and its closure `Do`).

The cluster API client is an external collaborator.  It is embedded as a
state machine `Client σ`: every method takes the client's state and returns
its outcome with the next state, so a theorem quantified over all clients
and states covers every combination of call outcomes.  A pass threads a
`Run`, which holds the client state, the client calls issued so far (in
order) and the log lines written so far.
-/

namespace NodeSim

/-! ## Data model -/

/-- The constant `NodeSimFinalizer` (line 35). -/
def NodeSimFinalizer : String := "sim.k8s.io/NodeFinal"

/-- API errors, as far as the controller classifies them. -/
inductive Err where
  | NotFound
  | AlreadyExists
  | Other (msg : String)
  deriving DecidableEq, Repr

/-- The test `apierrors.IsNotFound`. -/
def IsNotFound : Err → Bool
  | .NotFound => true
  | _ => false

/-- The key `types.NamespacedName`. -/
structure NamespacedName where
  Namespace : String
  Name : String
  deriving DecidableEq, Repr

/-- Modelled from the spec: the type `simv1.NodeSimulatorSpec` (package
`pkg/api/v1`): `spec: {Number: integer, <template fields>}`.  The template
fields are read by the template builder only and are kept as one payload. -/
structure NodeSimulatorSpec where
  Number : Int
  Template : String
  deriving DecidableEq, Repr

/-- Modelled from the spec: the type `simv1.NodeSimulator` (package
`pkg/api/v1`): `metadata: {namespace, name, finalizers, deletionTimestamp}`
and `spec`.  `Finalizers` is a Go slice: `none` is the nil slice, which the
controller tests for on line 74, and `some []` an empty one. -/
structure NodeSimulator where
  Namespace : String
  Name : String
  Finalizers : Option (List String)
  DeletionTimestamp : Option Nat
  Spec : NodeSimulatorSpec
  deriving DecidableEq, Repr

/-- A node object `v1.Node`: the metadata the controller touches and the two
payloads it copies from the template. -/
structure Node where
  Name : String
  Namespace : String
  Labels : List (String × String)
  Spec : String
  Status : String
  deriving DecidableEq, Repr

/-- The zero value `v1.Node{}`. -/
def Node.zero : Node := ⟨"", "", [], "", ""⟩

/-- One operation `util.Ops` of a JSON patch. -/
structure util.Ops where
  Op : String
  Path : String
  Value : String
  deriving DecidableEq, Repr

/-- The patch `util.Patch`. -/
structure util.Patch where
  PatchOps : List util.Ops
  deriving DecidableEq, Repr

/-- The value `ctrl.Result`. -/
structure Result where
  Requeue : Bool
  RequeueAfter : Nat
  deriving DecidableEq, Repr

/-- The empty result `ctrl.Result{}`. -/
def Result.empty : Result := ⟨false, 0⟩

/-- A call on the cluster API client, with its arguments. -/
inductive Call where
  | GetSim (key : NamespacedName)
  | List (labels : List (String × String))
  | Update (obj : NodeSimulator)
  | Delete (obj : Node)
  | GetNode (key : NamespacedName)
  | Create (obj : Node)
  | Patch (obj : Node) (p : util.Patch)
  | StatusPatch (obj : Node) (p : util.Patch)
  deriving DecidableEq, Repr

/-- A line written by the pass, named by its level and its source line. -/
inductive Log where
  | Warningf (line : Nat)
  | Errorf (line : Nat)
  | Printf (line : Nat)
  deriving DecidableEq, Repr

/-- The cluster API client `client.Client` as a state machine over `σ`.
`Get` is split by the type of the object fetched.  A call that fails leaves
the object handed to it as it was; what a successful `Update`, `Create`,
`Patch` or `Delete` writes back into its argument is not modelled.  `List`
yields the slice `Items`, `none` being the nil slice. -/
structure Client (σ : Type) where
  GetSim : NamespacedName → σ → Except Err NodeSimulator × σ
  List : List (String × String) → σ → Except Err (Option (List Node)) × σ
  Update : NodeSimulator → σ → Option Err × σ
  Delete : Node → σ → Option Err × σ
  GetNode : NamespacedName → σ → Except Err Node × σ
  Create : Node → σ → Option Err × σ
  Patch : Node → util.Patch → σ → Option Err × σ
  StatusPatch : Node → util.Patch → σ → Option Err × σ

/-- The receiver `NodeSimulatorReconciler` (its logger and scheme are not
used by the pass). -/
structure NodeSimulatorReconciler (σ : Type) where
  Client : Client σ

/-- Declarations of package `node` that `node_controller.go` uses and that
live in other files: the label constants and the template builder
`GenNode`.  They are parameters of the embedding. -/
structure NodePackage where
  ManageLabelKey : String
  ManageLabelValue : String
  UniqueLabelKey : String
  GenNode : NodeSimulator → Except Err Node

/-- The state threaded through a pass. -/
structure Run (σ : Type) where
  api : σ
  calls : List Call
  log : List Log

/-- The state a pass starts from. -/
def Run.init {σ : Type} (a : σ) : Run σ := ⟨a, [], []⟩

/-- Write one log line. -/
def Run.klog {σ : Type} (s : Run σ) (l : Log) : Run σ :=
  { s with log := s.log ++ [l] }

/-- Record a client call and move to the client's next state. -/
def Run.issue {σ : Type} (s : Run σ) (c : Call) (a : σ) : Run σ :=
  { s with api := a, calls := s.calls ++ [c] }

/-! ## Client calls -/

variable {σ : Type}

/-- The call `r.Client.Get` on a `NodeSimulator`. -/
def NodeSimulatorReconciler.Get (r : NodeSimulatorReconciler σ) (key : NamespacedName)
    (s : Run σ) : Except Err NodeSimulator × Run σ :=
  ((r.Client.GetSim key s.api).1, s.issue (.GetSim key) (r.Client.GetSim key s.api).2)

/-- The call `r.Client.List`. -/
def NodeSimulatorReconciler.List (r : NodeSimulatorReconciler σ)
    (labels : List (String × String)) (s : Run σ) :
    Except Err (Option (List Node)) × Run σ :=
  ((r.Client.List labels s.api).1, s.issue (.List labels) (r.Client.List labels s.api).2)

/-- The call `r.Update`. -/
def NodeSimulatorReconciler.Update (r : NodeSimulatorReconciler σ) (obj : NodeSimulator)
    (s : Run σ) : Option Err × Run σ :=
  ((r.Client.Update obj s.api).1, s.issue (.Update obj) (r.Client.Update obj s.api).2)

/-- The call `r.Client.Delete`. -/
def NodeSimulatorReconciler.Delete (r : NodeSimulatorReconciler σ) (obj : Node)
    (s : Run σ) : Option Err × Run σ :=
  ((r.Client.Delete obj s.api).1, s.issue (.Delete obj) (r.Client.Delete obj s.api).2)

/-- The call `r.Client.Get` on a `Node`. -/
def NodeSimulatorReconciler.GetNode (r : NodeSimulatorReconciler σ) (key : NamespacedName)
    (s : Run σ) : Except Err Node × Run σ :=
  ((r.Client.GetNode key s.api).1, s.issue (.GetNode key) (r.Client.GetNode key s.api).2)

/-- The call `r.Client.Create`. -/
def NodeSimulatorReconciler.Create (r : NodeSimulatorReconciler σ) (obj : Node)
    (s : Run σ) : Option Err × Run σ :=
  ((r.Client.Create obj s.api).1, s.issue (.Create obj) (r.Client.Create obj s.api).2)

/-- The call `r.Client.Patch`. -/
def NodeSimulatorReconciler.Patch (r : NodeSimulatorReconciler σ) (obj : Node) (p : util.Patch)
    (s : Run σ) : Option Err × Run σ :=
  ((r.Client.Patch obj p s.api).1, s.issue (.Patch obj p) (r.Client.Patch obj p s.api).2)

/-- The call `r.Client.Status().Patch`. -/
def NodeSimulatorReconciler.StatusPatch (r : NodeSimulatorReconciler σ) (obj : Node)
    (p : util.Patch) (s : Run σ) : Option Err × Run σ :=
  ((r.Client.StatusPatch obj p s.api).1,
    s.issue (.StatusPatch obj p) (r.Client.StatusPatch obj p s.api).2)

/-! ## The pass -/

/-- The decimal text `strconv.Itoa`. -/
def Itoa (i : Int) : String := toString i

/-- The name built on lines 109 and 138:
`GetNamespace() + "-" + GetName() + "-" + strconv.Itoa(i)`. -/
def nodeName (nodeSim : NodeSimulator) (i : Int) : String :=
  nodeSim.Namespace ++ "-" ++ nodeSim.Name ++ "-" ++ Itoa i

/-- The label selector of line 66. -/
def matchingLabels (p : NodePackage) (nodeSim : NodeSimulator) : List (String × String) :=
  [(p.ManageLabelKey, p.ManageLabelValue),
   (p.UniqueLabelKey, nodeSim.Namespace ++ "-" ++ nodeSim.Name)]

/-- The values taken by `i` in `for i := lo; i < hi; i++`. -/
def loopRange (lo hi : Int) : List Int :=
  (List.range (hi - lo).toNat).map (fun (k : Nat) => lo + (k : Int))

/-- Lines 74-86: a resource whose finalizers are nil gets the controller's
finalizer, is updated, and is fetched again. -/
def setFinalizers (r : NodeSimulatorReconciler σ) (req : NamespacedName)
    (nodeSim : NodeSimulator) (s : Run σ) : NodeSimulator × Run σ :=
  match nodeSim.Finalizers with
  | none =>
    let nodeSim := { nodeSim with Finalizers := some [NodeSimFinalizer] }
    let u := r.Update nodeSim s
    let s := if u.1.isSome then u.2.klog (.Errorf 79) else u.2
    let g := r.Get req s
    match g.1 with
    | .ok fetched => (fetched, g.2)
    | .error _ => (nodeSim, g.2.klog (.Errorf 84))
  | some _ => (nodeSim, s)

/-- Lines 93-95: the body of the loop over the observed nodes. -/
def deleteObserved (r : NodeSimulatorReconciler σ) (s : Run σ) (node : Node) : Run σ :=
  let d := r.Delete node (s.klog (.Printf 92))
  if d.1.isSome then d.2.klog (.Errorf 94) else d.2

/-- Lines 89-103: the branch taken when the resource is being deleted. -/
def deleteAll (r : NodeSimulatorReconciler σ) (items : Option (List Node))
    (nodeSim : NodeSimulator) (s : Run σ) : Run σ :=
  let s :=
    match items with
    | some l => if l.length > 0 then l.foldl (deleteObserved r) s else s
    | none => s
  let nodeSim := { nodeSim with Finalizers := none }
  let u := r.Update nodeSim s
  if u.1.isSome then u.2.klog (.Errorf 100) else u.2

/-- Lines 109-114: the body of the scale-down loop. -/
def deleteIndex (r : NodeSimulatorReconciler σ) (nodeSim : NodeSimulator) (s : Run σ)
    (i : Int) : Run σ :=
  let node := { Node.zero with Name := nodeName nodeSim i }
  let d := r.Delete node s
  match d.1 with
  | some err => if !IsNotFound err then d.2.klog (.Errorf 113) else d.2
  | none => d.2

/-- Lines 106-116: the scale-down loop. -/
def deleteNodes (r : NodeSimulatorReconciler σ) (items : Option (List Node))
    (nodeSim : NodeSimulator) (s : Run σ) : Run σ :=
  match items with
  | some l =>
    if (l.length : Int) > nodeSim.Spec.Number then
      (loopRange nodeSim.Spec.Number l.length).foldl (deleteIndex r nodeSim) s
    else s
  | none => s

/-- The patch of line 153. -/
def specOps (node : Node) : List util.Ops := [⟨"replace", "/spec", node.Spec⟩]

/-- The patch of line 160. -/
def statusOps (node : Node) : List util.Ops := [⟨"replace", "/status", node.Status⟩]

/-- Lines 142-174: the closure `Do`. -/
def Do (r : NodeSimulatorReconciler σ) (node : Node) (s : Run σ) : Run σ :=
  let g := r.GetNode ⟨node.Namespace, node.Name⟩ s
  match g.1 with
  | .error .NotFound =>
    let c := r.Create node g.2
    if c.1.isSome then c.2.klog (.Errorf 150) else c.2
  | _ =>
    let p := r.Patch node ⟨specOps node⟩ g.2
    let s := if p.1.isSome then p.2.klog (.Errorf 168) else p.2
    let q := r.StatusPatch node ⟨statusOps node⟩ s
    if q.1.isSome then q.2.klog (.Errorf 171) else q.2

/-- Modelled from the spec: the dispatcher `util.ParallelizeSyncNode`
(package `pkg/util`): it runs every unit of the batch, never cancels the
batch on a failing unit, imposes no order, and returns when all units are
done.  The embedding takes one of the schedules it admits: the units run
to completion one after the other, in list order; the bound on the number
of workers plays no part then. -/
def ParallelizeSyncNode (_workers : Nat) (nodes : List Node) (f : Node → Run σ → Run σ)
    (s : Run σ) : Run σ :=
  nodes.foldl (fun acc node => f node acc) s

/-- Lines 134-140: one copy of the template per index, named by its index. -/
def genNodeList (nodeSim : NodeSimulator) (nodeTemplate : Node) : List Node :=
  (List.range nodeSim.Spec.Number.toNat).map
    (fun (i : Nat) => { nodeTemplate with Name := nodeName nodeSim (i : Int) })

/-- Lines 123-177: `SyncFakeNode`. -/
def SyncFakeNode (p : NodePackage) (r : NodeSimulatorReconciler σ)
    (nodeSim : NodeSimulator) (s : Run σ) : Run σ :=
  if nodeSim.Spec.Number ≤ 0 then s
  else
    match p.GenNode nodeSim with
    | .error _ => s
    | .ok nodeTemplate =>
      ParallelizeSyncNode 5 (genNodeList nodeSim nodeTemplate) (Do r) s

/-- Lines 48-121: `Reconcile`.  The second component of the result is the
error returned, `none` for `nil`. -/
def Reconcile (p : NodePackage) (r : NodeSimulatorReconciler σ) (req : NamespacedName)
    (s : Run σ) : (Result × Option Err) × Run σ :=
  let g := r.Get req s
  match g.1 with
  | .error err =>
    let s := if IsNotFound err then g.2.klog (.Warningf 58) else g.2.klog (.Errorf 60)
    ((Result.empty, none), s)
  | .ok nodeSim =>
    let l := r.List (matchingLabels p nodeSim) g.2
    match l.1 with
    | .error err => ((Result.empty, some err), l.2)
    | .ok items =>
      let f := setFinalizers r req nodeSim l.2
      let nodeSim := f.1
      if nodeSim.DeletionTimestamp.isSome then
        ((Result.empty, none), deleteAll r items nodeSim f.2)
      else
        let s := deleteNodes r items nodeSim f.2
        ((Result.empty, none), SyncFakeNode p r nodeSim s)

/-! ## A reference store -/

/-- The objects held by the reference store. -/
structure Store where
  sims : List NodeSimulator
  nodes : List Node
  deriving DecidableEq, Repr

/-- Whether a resource is the one a key names. -/
def keyMatches (key : NamespacedName) (x : NodeSimulator) : Bool :=
  x.Namespace == key.Namespace && x.Name == key.Name

/-- The key of a resource. -/
def keyOf (x : NodeSimulator) : NamespacedName := ⟨x.Namespace, x.Name⟩

/-- Whether a node has a given name (nodes are cluster-scoped: the namespace
of a key is not looked at). -/
def named (name : String) (n : Node) : Bool := n.Name == name

/-- Whether a node carries every label of a selector. -/
def hasLabels (sel : List (String × String)) (n : Node) : Bool :=
  sel.all (fun kv => n.Labels.lookup kv.1 == some kv.2)

/-- Apply the operations of a patch that replace the payload at `path`. -/
def applyOps (path : String) (ops : List util.Ops) (set : Node → String → Node)
    (n : Node) : Node :=
  ops.foldl (fun acc o => if o.Op == "replace" && o.Path == path then set acc o.Value else acc) n

/-- Modelled from the spec: the cluster API client contract of §6, with no
failure other than the ones the contract names:
`get(name)→entry|NotFound; list(labelFilter)→entries;
create(entry)→ok|AlreadyExists; patch(name, path, value)→ok;
delete(name)→ok|NotFound`.  A list yields a non-nil slice. -/
def storeClient : Client Store where
  GetSim := fun key st =>
    match st.sims.find? (keyMatches key) with
    | some x => (.ok x, st)
    | none => (.error .NotFound, st)
  List := fun sel st => (.ok (some (st.nodes.filter (hasLabels sel))), st)
  Update := fun obj st =>
    if st.sims.any (keyMatches (keyOf obj)) then
      (none, { st with sims := st.sims.map (fun x => if keyMatches (keyOf obj) x then obj else x) })
    else (some .NotFound, st)
  Delete := fun obj st =>
    if st.nodes.any (named obj.Name) then
      (none, { st with nodes := st.nodes.filter (fun n => !named obj.Name n) })
    else (some .NotFound, st)
  GetNode := fun key st =>
    match st.nodes.find? (named key.Name) with
    | some n => (.ok n, st)
    | none => (.error .NotFound, st)
  Create := fun obj st =>
    if st.nodes.any (named obj.Name) then (some .AlreadyExists, st)
    else (none, { st with nodes := st.nodes ++ [obj] })
  Patch := fun obj p st =>
    if st.nodes.any (named obj.Name) then
      (none, { st with nodes := st.nodes.map (fun n =>
        if named obj.Name n then applyOps "/spec" p.PatchOps (fun m v => { m with Spec := v }) n
        else n) })
    else (some .NotFound, st)
  StatusPatch := fun obj p st =>
    if st.nodes.any (named obj.Name) then
      (none, { st with nodes := st.nodes.map (fun n =>
        if named obj.Name n then applyOps "/status" p.PatchOps (fun m v => { m with Status := v }) n
        else n) })
    else (some .NotFound, st)

/-- The reconciler over the reference store. -/
def storeReconciler : NodeSimulatorReconciler Store := ⟨storeClient⟩

/-- One pass over the reference store, from an empty record of calls. -/
def pass (p : NodePackage) (req : NamespacedName) (st : Store) :
    (Result × Option Err) × Run Store :=
  Reconcile p storeReconciler req (Run.init st)

/-! ## Vocabulary for the record of calls -/

/-- Whether a call is a create. -/
def Call.isCreate : Call → Bool
  | .Create _ => true
  | _ => false

/-- Whether a call is a patch, of the object or of its status. -/
def Call.isPatch : Call → Bool
  | .Patch _ _ => true
  | .StatusPatch _ _ => true
  | _ => false

/-- Whether a call is a delete. -/
def Call.isDelete : Call → Bool
  | .Delete _ => true
  | _ => false

/-- Whether a call is an update of the owning resource. -/
def Call.isUpdate : Call → Bool
  | .Update _ => true
  | _ => false

/-- Whether a call is one of those `Do` issues: a fetch of a node, a create
or a patch. -/
def Call.isSync : Call → Bool
  | .GetNode _ => true
  | .Create _ => true
  | .Patch _ _ => true
  | .StatusPatch _ _ => true
  | _ => false

/-- The calls `Do` issues for a node, given the outcome of its fetch. -/
def doCalls (node : Node) (fetched : Except Err Node) : List Call :=
  match fetched with
  | .error .NotFound => [.GetNode ⟨node.Namespace, node.Name⟩, .Create node]
  | _ =>
    [.GetNode ⟨node.Namespace, node.Name⟩,
     .Patch node ⟨[⟨"replace", "/spec", node.Spec⟩]⟩,
     .StatusPatch node ⟨[⟨"replace", "/status", node.Status⟩]⟩]

/-! ## The calls of each step, as lists -/

/-- The deletes of the scale-down loop, one per value of the loop variable. -/
def indexDeletes (nodeSim : NodeSimulator) (lo hi : Int) : List Call :=
  (loopRange lo hi).map (fun i => Call.Delete { Node.zero with Name := nodeName nodeSim i })

/-- The deletes of lines 106-116 for an observed list and a resource. -/
def scaleDownCalls (items : Option (List Node)) (nodeSim : NodeSimulator) : List Call :=
  match items with
  | some l =>
    if (l.length : Int) > nodeSim.Spec.Number then
      indexDeletes nodeSim nodeSim.Spec.Number l.length
    else []
  | none => []

/-- The calls of lines 74-86 for a resource as fetched. -/
def finalizerCalls (req : NamespacedName) (nodeSim : NodeSimulator) : List Call :=
  match nodeSim.Finalizers with
  | none => [.Update { nodeSim with Finalizers := some [NodeSimFinalizer] }, .GetSim req]
  | some _ => []

/-- The calls of lines 88-120 for the resource as held after line 86. -/
def branchCalls (items : Option (List Node)) (held : NodeSimulator) (t : List Call) :
    List Call :=
  if held.DeletionTimestamp.isSome then
    (items.getD []).map Call.Delete ++ [Call.Update { held with Finalizers := none }]
  else scaleDownCalls items held ++ t

/-- A package whose template builder succeeds and labels its template. -/
def samplePackage : NodePackage where
  ManageLabelKey := "sim.k8s.io/managed"
  ManageLabelValue := "true"
  UniqueLabelKey := "sim.k8s.io/unique"
  GenNode := fun x =>
    .ok ⟨"", "", [("sim.k8s.io/managed", "true"),
      ("sim.k8s.io/unique", x.Namespace ++ "-" ++ x.Name)], x.Spec.Template, "Ready"⟩

/-- A package whose template builder fails. -/
def failingPackage : NodePackage :=
  { samplePackage with GenNode := fun _ => .error (.Other "bad template") }

/-- The request for the resource `default/sim1`. -/
def sampleReq : NamespacedName := ⟨"default", "sim1"⟩

/-- The resource `default/sim1` with a finalizer list, a deletion timestamp
and a desired count. -/
def sampleSim (fs : Option (List String)) (ts : Option Nat) (n : Int) : NodeSimulator :=
  ⟨"default", "sim1", fs, ts, ⟨n, "tmpl"⟩⟩

/-- A managed node of `default/sim1` with the name of index `i`. -/
def sampleNode (i : Int) : Node :=
  ⟨nodeName (sampleSim none none 0) i, "", [("sim.k8s.io/managed", "true"),
    ("sim.k8s.io/unique", "default-sim1")], "tmpl", "Ready"⟩

/-- A client whose every fetch of the resource fails with one error. -/
def failingClient (e : Err) : Client Unit where
  GetSim := fun _ st => (.error e, st)
  List := fun _ st => (.ok none, st)
  Update := fun _ st => (none, st)
  Delete := fun _ st => (none, st)
  GetNode := fun _ st => (.error .NotFound, st)
  Create := fun _ st => (none, st)
  Patch := fun _ _ st => (none, st)
  StatusPatch := fun _ _ st => (none, st)

/-- A client that always shows the same resource and the same observed
nodes, finds no node by name, and answers every write with `e`. -/
def fixedClient (sim : NodeSimulator) (items : List Node) (e : Option Err) : Client Unit where
  GetSim := fun _ st => (.ok sim, st)
  List := fun _ st => (.ok (some items), st)
  Update := fun _ st => (e, st)
  Delete := fun _ st => (e, st)
  GetNode := fun _ st => (.error .NotFound, st)
  Create := fun _ st => (e, st)
  Patch := fun _ _ st => (e, st)
  StatusPatch := fun _ _ st => (e, st)

/-! ## Auxiliary definitions for the reference store -/

/-- The number a list of decimal digits stands for, on top of `a`. -/
def decodeDigits (a : Nat) (ds : List Char) : Nat :=
  ds.foldl (fun acc c => 10 * acc + (c.toNat - 48)) a

/-- The names of the nodes a store holds. -/
def Store.names (st : Store) : List String := st.nodes.map Node.Name

/-- The client state after `Do`. -/
def doApi (c : Client σ) (node : Node) (a : σ) : σ :=
  match (c.GetNode ⟨node.Namespace, node.Name⟩ a).1 with
  | .error .NotFound => (c.Create node (c.GetNode ⟨node.Namespace, node.Name⟩ a).2).2
  | _ =>
    (c.StatusPatch node ⟨statusOps node⟩
      (c.Patch node ⟨specOps node⟩ (c.GetNode ⟨node.Namespace, node.Name⟩ a).2).2).2

/-- The resource as held after lines 74-86 when the update and the second
fetch succeed on the reference store. -/
def withFinalizer (sim : NodeSimulator) : NodeSimulator :=
  match sim.Finalizers with
  | none => { sim with Finalizers := some [NodeSimFinalizer] }
  | some _ => sim

/-- The nodes the reference store lists for a resource. -/
def observed (p : NodePackage) (sim : NodeSimulator) (st : Store) : List Node :=
  st.nodes.filter (hasLabels (matchingLabels p sim))

/-- The copies of a template for the indices below `N`, named after a
resource. -/
def desiredNodes (sim : NodeSimulator) (tmpl : Node) (N : Nat) : List Node :=
  (List.range N).map (fun (i : Nat) => { tmpl with Name := nodeName sim (i : Int) })

/-! ## Basic facts -/

@[simp]
theorem klog_calls (s : Run σ) (l : Log) : (s.klog l).calls = s.calls := rfl

@[simp]
theorem klog_api (s : Run σ) (l : Log) : (s.klog l).api = s.api := rfl

@[simp]
theorem klog_log (s : Run σ) (l : Log) : (s.klog l).log = s.log ++ [l] := rfl

@[simp]
theorem issue_calls (s : Run σ) (c : Call) (a : σ) :
    (s.issue c a).calls = s.calls ++ [c] := rfl

@[simp]
theorem issue_api (s : Run σ) (c : Call) (a : σ) : (s.issue c a).api = a := rfl

@[simp]
theorem issue_log (s : Run σ) (c : Call) (a : σ) : (s.issue c a).log = s.log := rfl

@[simp]
theorem init_calls (a : σ) : (Run.init a).calls = [] := rfl

@[simp]
theorem init_api (a : σ) : (Run.init a).api = a := rfl

@[simp]
theorem init_log (a : σ) : (Run.init a).log = [] := rfl

theorem ite_klog_calls (b : Bool) (s : Run σ) (l : Log) :
    (if b then s.klog l else s).calls = s.calls := by
  cases b <;> rfl

theorem ite_klog_api (b : Bool) (s : Run σ) (l : Log) :
    (if b then s.klog l else s).api = s.api := by
  cases b <;> rfl

/-! ## The calls of each step -/

theorem Do_calls (r : NodeSimulatorReconciler σ) (node : Node) (s : Run σ) :
    (Do r node s).calls
      = s.calls ++ doCalls node (r.Client.GetNode ⟨node.Namespace, node.Name⟩ s.api).1 := by
  unfold Do doCalls
  simp only [NodeSimulatorReconciler.GetNode, NodeSimulatorReconciler.Create,
    NodeSimulatorReconciler.Patch, NodeSimulatorReconciler.StatusPatch, specOps, statusOps]
  split <;> simp [ite_klog_calls, ite_klog_api, *]

theorem doCalls_isSync (node : Node) (fetched : Except Err Node) :
    ∀ c ∈ doCalls node fetched, c.isSync = true := by
  unfold doCalls
  split <;> simp [Call.isSync]

theorem ParallelizeSyncNode_calls (r : NodeSimulatorReconciler σ) (w : Nat) (nodes : List Node) :
    ∀ s : Run σ, ∃ t : List Call,
      (ParallelizeSyncNode w nodes (Do r) s).calls = s.calls ++ t ∧
        ∀ c ∈ t, c.isSync = true := by
  induction nodes with
  | nil => intro s; exact ⟨[], by simp [ParallelizeSyncNode], by simp⟩
  | cons n rest ih =>
    intro s
    obtain ⟨t, ht, hs⟩ := ih (Do r n s)
    refine ⟨doCalls n (r.Client.GetNode ⟨n.Namespace, n.Name⟩ s.api).1 ++ t, ?_, ?_⟩
    · have h : ParallelizeSyncNode w (n :: rest) (Do r) s
          = ParallelizeSyncNode w rest (Do r) (Do r n s) := rfl
      rw [h, ht, Do_calls, List.append_assoc]
    · intro c hc
      rcases List.mem_append.mp hc with h | h
      · exact doCalls_isSync _ _ c h
      · exact hs c h

theorem SyncFakeNode_calls (p : NodePackage) (r : NodeSimulatorReconciler σ)
    (nodeSim : NodeSimulator) (s : Run σ) :
    ∃ t : List Call, (SyncFakeNode p r nodeSim s).calls = s.calls ++ t ∧
      ∀ c ∈ t, c.isSync = true := by
  unfold SyncFakeNode
  split
  · exact ⟨[], by simp, by simp⟩
  · split
    · exact ⟨[], by simp, by simp⟩
    · exact ParallelizeSyncNode_calls r 5 _ s

theorem deleteObserved_calls (r : NodeSimulatorReconciler σ) (s : Run σ) (node : Node) :
    (deleteObserved r s node).calls = s.calls ++ [Call.Delete node] := by
  simp [deleteObserved, NodeSimulatorReconciler.Delete, ite_klog_calls]

theorem foldl_deleteObserved_calls (r : NodeSimulatorReconciler σ) (l : List Node) :
    ∀ s : Run σ, (l.foldl (deleteObserved r) s).calls = s.calls ++ l.map Call.Delete := by
  induction l with
  | nil => intro s; simp
  | cons n rest ih =>
    intro s
    simp [List.foldl_cons, ih, deleteObserved_calls]

theorem deleteAll_calls (r : NodeSimulatorReconciler σ) (items : Option (List Node))
    (nodeSim : NodeSimulator) (s : Run σ) :
    (deleteAll r items nodeSim s).calls
      = s.calls ++ (items.getD []).map Call.Delete
          ++ [Call.Update { nodeSim with Finalizers := none }] := by
  unfold deleteAll
  simp only [NodeSimulatorReconciler.Update, ite_klog_calls, issue_calls]
  cases items with
  | none => simp
  | some l =>
    cases l with
    | nil => simp
    | cons n rest => simp [foldl_deleteObserved_calls, deleteObserved_calls]

theorem deleteIndex_calls (r : NodeSimulatorReconciler σ) (nodeSim : NodeSimulator)
    (s : Run σ) (i : Int) :
    (deleteIndex r nodeSim s i).calls
      = s.calls ++ [Call.Delete { Node.zero with Name := nodeName nodeSim i }] := by
  unfold deleteIndex
  simp only [NodeSimulatorReconciler.Delete]
  split
  · split <;> simp
  · simp

theorem foldl_deleteIndex_calls (r : NodeSimulatorReconciler σ) (nodeSim : NodeSimulator)
    (l : List Int) :
    ∀ s : Run σ, (l.foldl (deleteIndex r nodeSim) s).calls
      = s.calls ++ l.map (fun i => Call.Delete { Node.zero with Name := nodeName nodeSim i }) := by
  induction l with
  | nil => intro s; simp
  | cons n rest ih =>
    intro s
    simp [List.foldl_cons, ih, deleteIndex_calls]

theorem deleteNodes_calls (r : NodeSimulatorReconciler σ) (items : Option (List Node))
    (nodeSim : NodeSimulator) (s : Run σ) :
    (deleteNodes r items nodeSim s).calls = s.calls ++ scaleDownCalls items nodeSim := by
  unfold deleteNodes scaleDownCalls
  split
  · split
    · simp [foldl_deleteIndex_calls, indexDeletes]
    · simp
  · simp

theorem setFinalizers_calls (r : NodeSimulatorReconciler σ) (req : NamespacedName)
    (nodeSim : NodeSimulator) (s : Run σ) :
    (setFinalizers r req nodeSim s).2.calls = s.calls ++ finalizerCalls req nodeSim := by
  unfold setFinalizers finalizerCalls
  split
  · simp only [NodeSimulatorReconciler.Update, NodeSimulatorReconciler.Get]
    split <;> simp [ite_klog_calls, ite_klog_api, *]
  · simp

theorem setFinalizers_held (r : NodeSimulatorReconciler σ) (req : NamespacedName)
    (nodeSim : NodeSimulator) (s : Run σ) :
    ((setFinalizers r req nodeSim s).1 = nodeSim ∧ nodeSim.Finalizers ≠ none) ∨
    (nodeSim.Finalizers = none ∧
      ((setFinalizers r req nodeSim s).1 = { nodeSim with Finalizers := some [NodeSimFinalizer] } ∨
        ∃ st : σ, (r.Client.GetSim req st).1 = .ok (setFinalizers r req nodeSim s).1)) := by
  unfold setFinalizers
  split
  · rename_i hnil
    right
    refine ⟨hnil, ?_⟩
    simp only [NodeSimulatorReconciler.Get]
    split
    · rename_i fetched hf
      right
      exact ⟨_, hf⟩
    · left; rfl
  · rename_i fs hsome
    left
    exact ⟨rfl, by simp [hsome]⟩

theorem Reconcile_shape (p : NodePackage) (r : NodeSimulatorReconciler σ)
    (req : NamespacedName) (s : Run σ) (sim : NodeSimulator) (items : Option (List Node))
    (hget : (r.Client.GetSim req s.api).1 = .ok sim)
    (hlist : (r.Client.List (matchingLabels p sim) (r.Client.GetSim req s.api).2).1
      = .ok items) :
    (Reconcile p r req s).1 = (Result.empty, none) ∧
    ∃ (held : NodeSimulator) (t : List Call),
      ((held = sim ∧ sim.Finalizers ≠ none) ∨
        (sim.Finalizers = none ∧
          (held = { sim with Finalizers := some [NodeSimFinalizer] } ∨
            ∃ st : σ, (r.Client.GetSim req st).1 = .ok held))) ∧
      (∀ c ∈ t, c.isSync = true) ∧
      (Reconcile p r req s).2.calls
        = s.calls ++ [Call.GetSim req, Call.List (matchingLabels p sim)]
            ++ finalizerCalls req sim ++ branchCalls items held t := by
  unfold Reconcile
  simp only [NodeSimulatorReconciler.Get, NodeSimulatorReconciler.List, hget, issue_api, hlist]
  have hheld := setFinalizers_held r req sim
    ((s.issue (Call.GetSim req) (r.Client.GetSim req s.api).2).issue
      (Call.List (matchingLabels p sim))
      (r.Client.List (matchingLabels p sim) (r.Client.GetSim req s.api).2).2)
  have hcalls := setFinalizers_calls r req sim
    ((s.issue (Call.GetSim req) (r.Client.GetSim req s.api).2).issue
      (Call.List (matchingLabels p sim))
      (r.Client.List (matchingLabels p sim) (r.Client.GetSim req s.api).2).2)
  generalize setFinalizers r req sim
    ((s.issue (Call.GetSim req) (r.Client.GetSim req s.api).2).issue
      (Call.List (matchingLabels p sim))
      (r.Client.List (matchingLabels p sim) (r.Client.GetSim req s.api).2).2) = f at hheld hcalls ⊢
  by_cases hd : f.1.DeletionTimestamp.isSome = true
  · simp only [hd, if_true]
    refine ⟨trivial, f.1, [], hheld, by simp, ?_⟩
    rw [deleteAll_calls, hcalls]
    simp [branchCalls, hd]
  · simp only [hd]
    obtain ⟨t, ht, hs⟩ := SyncFakeNode_calls p r f.1 (deleteNodes r items f.1 f.2)
    refine ⟨?_, f.1, t, hheld, hs, ?_⟩
    · simp
    · simp only [Bool.false_eq_true, if_false]
      rw [ht, deleteNodes_calls, hcalls]
      simp [branchCalls, hd]

/-- C5 (counterexample): the fetch of `default/sim1` fails with an error that
is not "not found", and the pass returns the empty result with a nil error:
the fetch error is not returned. -/
theorem fetch_error_not_returned :
    ((failingClient (.Other "timeout")).GetSim sampleReq ()).1 = .error (.Other "timeout") ∧
    IsNotFound (.Other "timeout") = false ∧
    (Reconcile samplePackage ⟨failingClient (.Other "timeout")⟩ sampleReq (Run.init ())).1
      = (Result.empty, none) := by
  refine ⟨rfl, rfl, rfl⟩

/-- C5 (amended): when the first fetch of the owning resource fails, with
"not found" or with any other error, the pass returns the empty result and a
nil error, and the fetch is the only client call it issues; the two cases
differ in the log line only (a warning for "not found", an error
otherwise). -/
theorem fetch_error_ends_pass (p : NodePackage) (r : NodeSimulatorReconciler σ)
    (req : NamespacedName) (a : σ) (err : Err)
    (hget : (r.Client.GetSim req a).1 = .error err) :
    (Reconcile p r req (Run.init a)).1 = (Result.empty, none) ∧
    (Reconcile p r req (Run.init a)).2.calls = [Call.GetSim req] ∧
    (Reconcile p r req (Run.init a)).2.log
      = [if IsNotFound err then Log.Warningf 58 else Log.Errorf 60] := by
  unfold Reconcile
  simp only [NodeSimulatorReconciler.Get, init_api, hget]
  cases h : IsNotFound err <;> simp

/-- C5 (amended), at a fetch failing with a timeout. -/
theorem fetch_error_ends_pass_witness :
    (Reconcile samplePackage ⟨failingClient (.Other "timeout")⟩ sampleReq (Run.init ())).1
        = (Result.empty, none) ∧
    (Reconcile samplePackage ⟨failingClient (.Other "timeout")⟩ sampleReq (Run.init ())).2.calls
        = [Call.GetSim sampleReq] ∧
    (Reconcile samplePackage ⟨failingClient (.Other "timeout")⟩ sampleReq (Run.init ())).2.log
        = [if IsNotFound (.Other "timeout") then Log.Warningf 58 else Log.Errorf 60] :=
  fetch_error_ends_pass samplePackage ⟨failingClient (.Other "timeout")⟩ sampleReq ()
    (.Other "timeout") rfl

/-- C8: whenever the first fetch and the list succeed, the pass returns the
empty result and a nil error, whatever the client answers to the update of
the finalizers, the second fetch, and every create, patch and delete, and
whatever the template builder returns. -/
theorem error_isolation (p : NodePackage) (r : NodeSimulatorReconciler σ)
    (req : NamespacedName) (a : σ) (sim : NodeSimulator) (items : Option (List Node))
    (hget : (r.Client.GetSim req a).1 = .ok sim)
    (hlist : (r.Client.List (matchingLabels p sim) (r.Client.GetSim req a).2).1 = .ok items) :
    (Reconcile p r req (Run.init a)).1 = (Result.empty, none) :=
  (Reconcile_shape p r req (Run.init a) sim items hget hlist).1

/-- C8, at a client that fails every write, under a failing template
builder. -/
theorem error_isolation_witness :
    (Reconcile failingPackage
      ⟨fixedClient (sampleSim none none 2) [sampleNode 0, sampleNode 1, sampleNode 2]
        (some (.Other "refused"))⟩ sampleReq (Run.init ())).1 = (Result.empty, none) :=
  error_isolation failingPackage
    ⟨fixedClient (sampleSim none none 2) [sampleNode 0, sampleNode 1, sampleNode 2]
      (some (.Other "refused"))⟩ sampleReq () (sampleSim none none 2)
    (some [sampleNode 0, sampleNode 1, sampleNode 2]) rfl rfl

theorem finalizerCalls_no_sync (req : NamespacedName) (sim : NodeSimulator) :
    ∀ c ∈ finalizerCalls req sim,
      c.isCreate = false ∧ c.isPatch = false ∧ c.isDelete = false ∧ c.isSync = false := by
  unfold finalizerCalls
  split <;> simp [Call.isCreate, Call.isPatch, Call.isDelete, Call.isSync]

theorem scaleDownCalls_isDelete (items : Option (List Node)) (sim : NodeSimulator) :
    ∀ c ∈ scaleDownCalls items sim, c.isDelete = true := by
  unfold scaleDownCalls indexDeletes
  split
  · split
    · intro c hc
      obtain ⟨i, -, rfl⟩ := List.mem_map.mp hc
      rfl
    · simp
  · simp

theorem update_mem_branchCalls (items : Option (List Node)) (held : NodeSimulator)
    (t : List Call) (ht : ∀ c ∈ t, c.isSync = true) (o : NodeSimulator)
    (ho : Call.Update o ∈ branchCalls items held t) :
    held.DeletionTimestamp.isSome = true ∧ o = { held with Finalizers := none } := by
  unfold branchCalls at ho
  split at ho
  · rename_i hd
    refine ⟨hd, ?_⟩
    simpa using ho
  · rcases List.mem_append.mp ho with h | h
    · have := scaleDownCalls_isDelete items held _ h
      simp [Call.isDelete] at this
    · have := ht _ h
      simp [Call.isSync] at this

/-- C6 (counterexample): the resource `default/sim1` holds one finalizer, of
another controller, and not `NodeSimFinalizer`; the fetch and the list
succeed, and the pass issues no update at all. -/
theorem foreign_finalizer_not_added :
    (storeClient.GetSim sampleReq ⟨[sampleSim (some ["other.io/guard"]) none 1], []⟩).1
      = .ok (sampleSim (some ["other.io/guard"]) none 1) ∧
    NodeSimFinalizer ∉ ["other.io/guard"] ∧
    (pass samplePackage sampleReq ⟨[sampleSim (some ["other.io/guard"]) none 1], []⟩).2.calls
      = [Call.GetSim sampleReq,
         Call.List (matchingLabels samplePackage (sampleSim (some ["other.io/guard"]) none 1)),
         Call.GetNode ⟨"", "default-sim1-0"⟩,
         Call.Create { sampleNode 0 with Name := "default-sim1-0" }] := by
  refine ⟨rfl, by decide, by decide⟩

/-- C6 (amended): the finalizer is added when the finalizer list of the
fetched resource is nil, and only then.  In a pass whose fetch and list
succeed: if the list is nil, the next two calls are an update of the
resource with finalizers `[NodeSimFinalizer]` and a second fetch of it; if
the list is not nil (also when it holds only other finalizers), no update
that sets a finalizer is issued (the only update possible is the one of
the deletion branch, with nil finalizers). -/
theorem finalizer_added_when_nil (p : NodePackage) (r : NodeSimulatorReconciler σ)
    (req : NamespacedName) (a : σ) (sim : NodeSimulator) (items : Option (List Node))
    (hget : (r.Client.GetSim req a).1 = .ok sim)
    (hlist : (r.Client.List (matchingLabels p sim) (r.Client.GetSim req a).2).1 = .ok items) :
    (sim.Finalizers = none →
      ∃ rest : List Call, (Reconcile p r req (Run.init a)).2.calls
        = [Call.GetSim req, Call.List (matchingLabels p sim),
           Call.Update { sim with Finalizers := some [NodeSimFinalizer] },
           Call.GetSim req] ++ rest) ∧
    (sim.Finalizers ≠ none →
      ∀ o : NodeSimulator, Call.Update o ∈ (Reconcile p r req (Run.init a)).2.calls →
        o.Finalizers = none) := by
  obtain ⟨-, held, t, -, ht, hcalls⟩ :=
    Reconcile_shape p r req (Run.init a) sim items hget hlist
  constructor
  · intro hnil
    refine ⟨branchCalls items held t, ?_⟩
    rw [hcalls]
    simp [finalizerCalls, hnil]
  · intro hsome o ho
    rw [hcalls] at ho
    have hfin : finalizerCalls req sim = [] := by
      unfold finalizerCalls
      split
      · rename_i h; exact absurd h hsome
      · rfl
    rw [hfin] at ho
    simp only [init_calls, List.nil_append, List.append_nil, List.mem_append, List.mem_cons,
      List.mem_singleton, List.not_mem_nil, or_false, reduceCtorEq, false_or] at ho
    rw [(update_mem_branchCalls items held t ht o ho).2]

/-- C6 (amended), at a resource with nil finalizers in the reference store. -/
theorem finalizer_added_when_nil_witness :
    (sampleSim none none 1).Finalizers = none ∧
    ∃ rest : List Call,
      (Reconcile samplePackage storeReconciler sampleReq
        (Run.init ⟨[sampleSim none none 1], []⟩)).2.calls
        = [Call.GetSim sampleReq, Call.List (matchingLabels samplePackage (sampleSim none none 1)),
           Call.Update { sampleSim none none 1 with Finalizers := some [NodeSimFinalizer] },
           Call.GetSim sampleReq] ++ rest :=
  ⟨rfl, (finalizer_added_when_nil samplePackage storeReconciler sampleReq
    ⟨[sampleSim none none 1], []⟩ (sampleSim none none 1) (some [])
    rfl rfl).1 rfl⟩

/-- C7 (counterexample): the resource `default/sim1` is under deletion and
holds `NodeSimFinalizer` and a finalizer of another controller; the pass
updates it with nil finalizers, so the other finalizer is removed too. -/
theorem foreign_finalizer_cleared :
    "other.io/guard" ∈ [NodeSimFinalizer, "other.io/guard"] ∧
    (pass samplePackage sampleReq
      ⟨[sampleSim (some [NodeSimFinalizer, "other.io/guard"]) (some 7) 1], []⟩).2.calls
      = [Call.GetSim sampleReq,
         Call.List (matchingLabels samplePackage
           (sampleSim (some [NodeSimFinalizer, "other.io/guard"]) (some 7) 1)),
         Call.Update (sampleSim none (some 7) 1)] ∧
    (pass samplePackage sampleReq
      ⟨[sampleSim (some [NodeSimFinalizer, "other.io/guard"]) (some 7) 1], []⟩).2.api.sims
      = [sampleSim none (some 7) 1] := by
  refine ⟨by decide, by decide, by decide⟩

/-- C7 (amended): the pass writes the finalizer list as a whole.  Every
update it issues either sets the list to exactly `[NodeSimFinalizer]`, and
then the fetched resource had a nil list, so that no other finalizer is
lost; or it is the update of the deletion branch, which sets the list to
nil and so removes every finalizer the resource held, those of other
controllers included. -/
theorem finalizer_updates (p : NodePackage) (r : NodeSimulatorReconciler σ)
    (req : NamespacedName) (a : σ) (sim : NodeSimulator) (items : Option (List Node))
    (hget : (r.Client.GetSim req a).1 = .ok sim)
    (hlist : (r.Client.List (matchingLabels p sim) (r.Client.GetSim req a).2).1 = .ok items)
    (o : NodeSimulator) (ho : Call.Update o ∈ (Reconcile p r req (Run.init a)).2.calls) :
    (sim.Finalizers = none ∧ o = { sim with Finalizers := some [NodeSimFinalizer] }) ∨
    o.Finalizers = none := by
  obtain ⟨-, held, t, -, ht, hcalls⟩ :=
    Reconcile_shape p r req (Run.init a) sim items hget hlist
  rw [hcalls] at ho
  simp only [init_calls, List.nil_append, List.mem_append, List.mem_cons,
    List.mem_singleton, List.not_mem_nil, or_false, reduceCtorEq, false_or] at ho
  rcases ho with h | h
  · left
    unfold finalizerCalls at h
    split at h
    · rename_i hnil
      simp only [List.mem_cons, List.mem_singleton, List.not_mem_nil, or_false, reduceCtorEq,
        Call.Update.injEq] at h
      exact ⟨hnil, h⟩
    · simp at h
  · right
    rw [(update_mem_branchCalls items held t ht o h).2]

/-- C7 (amended), at the clearing update of a resource under deletion. -/
theorem finalizer_updates_witness :
    (sampleSim (some [NodeSimFinalizer, "other.io/guard"]) (some 7) 1).Finalizers = none ∧
      sampleSim none (some 7) 1
        = { sampleSim (some [NodeSimFinalizer, "other.io/guard"]) (some 7) 1 with
            Finalizers := some [NodeSimFinalizer] } ∨
    (sampleSim none (some 7) 1).Finalizers = none :=
  finalizer_updates samplePackage storeReconciler sampleReq
    ⟨[sampleSim (some [NodeSimFinalizer, "other.io/guard"]) (some 7) 1], []⟩
    (sampleSim (some [NodeSimFinalizer, "other.io/guard"]) (some 7) 1) (some [])
    rfl rfl (sampleSim none (some 7) 1) (by decide)

theorem filter_isDelete_of_isSync (t : List Call) (ht : ∀ c ∈ t, c.isSync = true) :
    t.filter Call.isDelete = [] := by
  rw [List.filter_eq_nil_iff]
  intro c hc
  have := ht c hc
  cases c <;> simp_all [Call.isSync, Call.isDelete]

theorem filter_isDelete_finalizerCalls (req : NamespacedName) (sim : NodeSimulator) :
    (finalizerCalls req sim).filter Call.isDelete = [] := by
  rw [List.filter_eq_nil_iff]
  intro c hc
  simp [(finalizerCalls_no_sync req sim c hc).2.2.1]

theorem filter_isDelete_indexDeletes (sim : NodeSimulator) (lo hi : Int) :
    (indexDeletes sim lo hi).filter Call.isDelete = indexDeletes sim lo hi := by
  rw [List.filter_eq_self]
  intro c hc
  unfold indexDeletes at hc
  obtain ⟨i, -, rfl⟩ := List.mem_map.mp hc
  rfl

theorem nodeName_congr (x y : NodeSimulator) (hns : x.Namespace = y.Namespace)
    (hn : x.Name = y.Name) (i : Int) : nodeName x i = nodeName y i := by
  simp [nodeName, hns, hn]

theorem indexDeletes_congr (x y : NodeSimulator) (hns : x.Namespace = y.Namespace)
    (hn : x.Name = y.Name) (lo hi : Int) : indexDeletes x lo hi = indexDeletes y lo hi := by
  simp [indexDeletes, nodeName_congr x y hns hn]

theorem digitChar_value : ∀ k < 10, (Nat.digitChar k).toNat - 48 = k := by
  decide

theorem decode_toDigitsCore (fuel : Nat) :
    ∀ (n : Nat) (ds : List Char), n < fuel →
      decodeDigits 0 (Nat.toDigitsCore 10 fuel n ds) = decodeDigits n ds := by
  induction fuel with
  | zero => intro n ds h; omega
  | succ fuel ih =>
    intro n ds h
    unfold Nat.toDigitsCore
    by_cases h0 : n / 10 = 0
    · simp only [h0, if_true]
      have hn : n % 10 = n := by omega
      have hd : (Nat.digitChar n).toNat - 48 = n := digitChar_value n (by omega)
      simp [decodeDigits, List.foldl_cons, hn, hd]
    · simp only [h0, if_false]
      rw [ih (n / 10) _ (by omega)]
      have hn : 10 * (n / 10) + n % 10 = n := Nat.div_add_mod n 10
      simp [decodeDigits, List.foldl_cons, digitChar_value (n % 10) (Nat.mod_lt _ (by omega)), hn]

theorem decode_repr (n : Nat) : decodeDigits 0 (Nat.repr n).data = n := by
  have h := decode_toDigitsCore (n + 1) n [] (by omega)
  simpa [Nat.repr, Nat.toDigits, List.asString, decodeDigits] using h

theorem Itoa_natCast (n : Nat) : Itoa (n : Int) = Nat.repr n := rfl

theorem Itoa_natCast_injective (i j : Nat) (h : Itoa (i : Int) = Itoa (j : Int)) : i = j := by
  rw [Itoa_natCast, Itoa_natCast] at h
  have := congrArg (fun s => decodeDigits 0 s.data) h
  simpa [decode_repr] using this

theorem append_left_cancel (a b c : String) (h : a ++ b = a ++ c) : b = c := by
  have h1 := congrArg String.data h
  simp only [String.data_append] at h1
  exact String.ext (List.append_cancel_left h1)

theorem nodeName_natCast_injective (sim : NodeSimulator) (i j : Nat)
    (h : nodeName sim (i : Int) = nodeName sim (j : Int)) : i = j :=
  Itoa_natCast_injective i j (append_left_cancel _ _ _ h)

/-! ## The pass over the reference store -/

theorem Do_api (r : NodeSimulatorReconciler σ) (node : Node) (s : Run σ) :
    (Do r node s).api = doApi r.Client node s.api := by
  unfold Do doApi
  simp only [NodeSimulatorReconciler.GetNode, NodeSimulatorReconciler.Create,
    NodeSimulatorReconciler.Patch, NodeSimulatorReconciler.StatusPatch]
  split <;> simp [ite_klog_calls, ite_klog_api, *]

theorem any_named_iff (nodes : List Node) (nm : String) :
    nodes.any (named nm) = true ↔ nm ∈ nodes.map Node.Name := by
  simp only [List.any_eq_true, named, beq_iff_eq, List.mem_map]

theorem store_GetNode_absent (key : NamespacedName) (st : Store) (h : key.Name ∉ st.names) :
    storeClient.GetNode key st = (.error .NotFound, st) := by
  have hf : st.nodes.find? (named key.Name) = none := by
    rw [List.find?_eq_none]
    intro x hx hp
    exact h (List.mem_map.mpr ⟨x, hx, by simpa [named] using hp⟩)
  simp [storeClient, hf]

theorem store_GetNode_present (key : NamespacedName) (st : Store) (h : key.Name ∈ st.names) :
    ∃ n : Node, storeClient.GetNode key st = (.ok n, st) := by
  cases hf : st.nodes.find? (named key.Name) with
  | none =>
    rw [List.find?_eq_none] at hf
    obtain ⟨x, hx, hname⟩ := List.mem_map.mp h
    exact absurd (by simp [named, hname]) (hf x hx)
  | some n => exact ⟨n, by simp [storeClient, hf]⟩

theorem applyOps_name (path : String) (ops : List util.Ops) (set : Node → String → Node)
    (hset : ∀ m v, (set m v).Name = m.Name) :
    ∀ n : Node, (applyOps path ops set n).Name = n.Name := by
  induction ops with
  | nil => intro n; rfl
  | cons o rest ih =>
    intro n
    unfold applyOps at ih ⊢
    rw [List.foldl_cons, ih]
    split
    · exact hset n o.Value
    · rfl

theorem store_Patch_names (obj : Node) (p : util.Patch) (st : Store) :
    (storeClient.Patch obj p st).2.names = st.names ∧
      (storeClient.Patch obj p st).2.sims = st.sims := by
  simp only [storeClient]
  split
  · refine ⟨?_, rfl⟩
    simp only [Store.names, List.map_map]
    apply List.map_congr_left
    intro n _
    simp only [Function.comp]
    split
    · exact applyOps_name "/spec" p.PatchOps (fun m v => { m with Spec := v })
        (fun _ _ => rfl) n
    · rfl
  · exact ⟨rfl, rfl⟩

theorem store_StatusPatch_names (obj : Node) (p : util.Patch) (st : Store) :
    (storeClient.StatusPatch obj p st).2.names = st.names ∧
      (storeClient.StatusPatch obj p st).2.sims = st.sims := by
  simp only [storeClient]
  split
  · refine ⟨?_, rfl⟩
    simp only [Store.names, List.map_map]
    apply List.map_congr_left
    intro n _
    simp only [Function.comp]
    split
    · exact applyOps_name "/status" p.PatchOps (fun m v => { m with Status := v })
        (fun _ _ => rfl) n
    · rfl
  · exact ⟨rfl, rfl⟩

theorem store_Create_absent (obj : Node) (st : Store) (h : obj.Name ∉ st.names) :
    storeClient.Create obj st = (none, { st with nodes := st.nodes ++ [obj] }) := by
  have hany : st.nodes.any (named obj.Name) = false := by
    rw [Bool.eq_false_iff]
    intro hc
    exact h ((any_named_iff _ _).mp hc)
  simp only [storeClient, hany]
  rfl

theorem doApi_store_absent (node : Node) (st : Store) (h : node.Name ∉ st.names) :
    doApi storeClient node st = { st with nodes := st.nodes ++ [node] } := by
  unfold doApi
  rw [store_GetNode_absent ⟨node.Namespace, node.Name⟩ st h, store_Create_absent node st h]

theorem doApi_store_present (node : Node) (st : Store) (h : node.Name ∈ st.names) :
    (doApi storeClient node st).names = st.names ∧ (doApi storeClient node st).sims = st.sims := by
  unfold doApi
  obtain ⟨n, hn⟩ := store_GetNode_present ⟨node.Namespace, node.Name⟩ st h
  rw [hn]
  simp only
  have h1 := store_Patch_names node ⟨specOps node⟩ st
  have h2 := store_StatusPatch_names node ⟨statusOps node⟩
    (storeClient.Patch node ⟨specOps node⟩ st).2
  exact ⟨h2.1.trans h1.1, h2.2.trans h1.2⟩

theorem Do_api_store (node : Node) (s : Run Store) :
    (Do storeReconciler node s).api = doApi storeClient node s.api :=
  Do_api storeReconciler node s

theorem fold_Do_fresh (w : Nat) (l : List Node) :
    ∀ s : Run Store, (l.map Node.Name).Nodup → (∀ n ∈ l, n.Name ∉ s.api.names) →
      (ParallelizeSyncNode w l (Do storeReconciler) s).api
          = { s.api with nodes := s.api.nodes ++ l } ∧
      (ParallelizeSyncNode w l (Do storeReconciler) s).calls
          = s.calls ++ l.flatMap
              (fun n => [Call.GetNode ⟨n.Namespace, n.Name⟩, Call.Create n]) := by
  induction l with
  | nil => intro s _ _; simp [ParallelizeSyncNode]
  | cons n rest ih =>
    intro s hnd hfresh
    have hstep : ParallelizeSyncNode w (n :: rest) (Do storeReconciler) s
        = ParallelizeSyncNode w rest (Do storeReconciler) (Do storeReconciler n s) := rfl
    have hn : n.Name ∉ s.api.names := hfresh n (List.mem_cons_self _ _)
    have hapi : (Do storeReconciler n s).api = { s.api with nodes := s.api.nodes ++ [n] } := by
      rw [Do_api_store]
      exact doApi_store_absent n s.api hn
    have hcalls : (Do storeReconciler n s).calls
        = s.calls ++ [Call.GetNode ⟨n.Namespace, n.Name⟩, Call.Create n] := by
      rw [Do_calls]
      have : storeReconciler.Client.GetNode ⟨n.Namespace, n.Name⟩ s.api
          = (.error .NotFound, s.api) := store_GetNode_absent ⟨n.Namespace, n.Name⟩ s.api hn
      rw [this]
      rfl
    rw [List.map_cons, List.nodup_cons] at hnd
    have hrest : ∀ m ∈ rest, m.Name ∉ (Do storeReconciler n s).api.names := by
      intro m hm hmem
      rw [hapi] at hmem
      simp only [Store.names, List.map_append, List.map_cons, List.map_nil, List.mem_append,
        List.mem_singleton] at hmem
      rcases hmem with h | h
      · exact hfresh m (List.mem_cons_of_mem _ hm) h
      · exact hnd.1 (h ▸ List.mem_map_of_mem Node.Name hm)
    obtain ⟨h1, h2⟩ := ih (Do storeReconciler n s) hnd.2 hrest
    rw [hstep, h1, h2, hapi, hcalls]
    simp

theorem fold_Do_present (w : Nat) (l : List Node) :
    ∀ s : Run Store, (∀ n ∈ l, n.Name ∈ s.api.names) →
      (ParallelizeSyncNode w l (Do storeReconciler) s).api.names = s.api.names ∧
      (ParallelizeSyncNode w l (Do storeReconciler) s).api.sims = s.api.sims ∧
      (ParallelizeSyncNode w l (Do storeReconciler) s).calls
          = s.calls ++ l.flatMap
              (fun n => [Call.GetNode ⟨n.Namespace, n.Name⟩,
                Call.Patch n ⟨[⟨"replace", "/spec", n.Spec⟩]⟩,
                Call.StatusPatch n ⟨[⟨"replace", "/status", n.Status⟩]⟩]) := by
  induction l with
  | nil => intro s _; simp [ParallelizeSyncNode]
  | cons n rest ih =>
    intro s hall
    have hstep : ParallelizeSyncNode w (n :: rest) (Do storeReconciler) s
        = ParallelizeSyncNode w rest (Do storeReconciler) (Do storeReconciler n s) := rfl
    have hn : n.Name ∈ s.api.names := hall n (List.mem_cons_self _ _)
    have hapi := doApi_store_present n s.api hn
    rw [← Do_api_store n s] at hapi
    have hcalls : (Do storeReconciler n s).calls
        = s.calls ++ [Call.GetNode ⟨n.Namespace, n.Name⟩,
            Call.Patch n ⟨[⟨"replace", "/spec", n.Spec⟩]⟩,
            Call.StatusPatch n ⟨[⟨"replace", "/status", n.Status⟩]⟩] := by
      rw [Do_calls]
      obtain ⟨x, hx⟩ := store_GetNode_present ⟨n.Namespace, n.Name⟩ s.api hn
      have : storeReconciler.Client.GetNode ⟨n.Namespace, n.Name⟩ s.api = (.ok x, s.api) := hx
      rw [this]
      rfl
    have hrest : ∀ m ∈ rest, m.Name ∈ (Do storeReconciler n s).api.names := by
      intro m hm
      rw [hapi.1]
      exact hall m (List.mem_cons_of_mem _ hm)
    obtain ⟨h1, h2, h3⟩ := ih (Do storeReconciler n s) hrest
    rw [hstep, h1, h2, h3, hapi.1, hapi.2, hcalls]
    simp

theorem fold_Do_grows (w : Nat) (l : List Node) :
    ∀ s : Run Store,
      (ParallelizeSyncNode w l (Do storeReconciler) s).api.sims = s.api.sims ∧
      (∀ nm ∈ s.api.names, nm ∈ (ParallelizeSyncNode w l (Do storeReconciler) s).api.names) ∧
      (∀ n ∈ l, n.Name ∈ (ParallelizeSyncNode w l (Do storeReconciler) s).api.names) := by
  induction l with
  | nil => intro s; simp [ParallelizeSyncNode]
  | cons n rest ih =>
    intro s
    have hstep : ParallelizeSyncNode w (n :: rest) (Do storeReconciler) s
        = ParallelizeSyncNode w rest (Do storeReconciler) (Do storeReconciler n s) := rfl
    have hone : (Do storeReconciler n s).api.sims = s.api.sims ∧
        (∀ nm ∈ s.api.names, nm ∈ (Do storeReconciler n s).api.names) ∧
        n.Name ∈ (Do storeReconciler n s).api.names := by
      rw [Do_api_store]
      by_cases hn : n.Name ∈ s.api.names
      · have h := doApi_store_present n s.api hn
        refine ⟨h.2, ?_, ?_⟩
        · intro nm hnm; rw [h.1]; exact hnm
        · rw [h.1]; exact hn
      · have h : doApi storeClient n s.api
            = { s.api with nodes := s.api.nodes ++ [n] } := doApi_store_absent n s.api hn
        rw [h]
        refine ⟨rfl, ?_, ?_⟩
        · intro nm hnm
          simp only [Store.names, List.map_append, List.mem_append]
          exact Or.inl hnm
        · simp [Store.names]
    obtain ⟨h1, h2, h3⟩ := ih (Do storeReconciler n s)
    rw [hstep]
    refine ⟨h1.trans hone.1, ?_, ?_⟩
    · intro nm hnm
      exact h2 nm (hone.2.1 nm hnm)
    · intro m hm
      rcases List.mem_cons.mp hm with h | h
      · rw [h]; exact h2 _ hone.2.2
      · exact h3 m h

theorem withFinalizer_fields (sim : NodeSimulator) :
    (withFinalizer sim).Namespace = sim.Namespace ∧ (withFinalizer sim).Name = sim.Name ∧
    (withFinalizer sim).DeletionTimestamp = sim.DeletionTimestamp ∧
    (withFinalizer sim).Spec = sim.Spec ∧ (withFinalizer sim).Finalizers ≠ none := by
  unfold withFinalizer
  split
  · simp
  · rename_i fs h
    simp [h]

theorem store_Delete_names (obj : Node) (st : Store) :
    (storeClient.Delete obj st).2.sims = st.sims ∧
    ∀ nm : String, nm ∈ (storeClient.Delete obj st).2.names ↔ nm ∈ st.names ∧ nm ≠ obj.Name := by
  simp only [storeClient]
  split
  · refine ⟨rfl, ?_⟩
    intro nm
    simp only [Store.names, List.mem_map, List.mem_filter, named, Bool.not_eq_true',
      beq_eq_false_iff_ne, ne_eq]
    constructor
    · rintro ⟨n, ⟨hn, hne⟩, rfl⟩
      exact ⟨⟨n, hn, rfl⟩, hne⟩
    · rintro ⟨⟨n, hn, rfl⟩, hne⟩
      exact ⟨n, ⟨hn, hne⟩, rfl⟩
  · rename_i hany
    refine ⟨rfl, ?_⟩
    intro nm
    constructor
    · intro h
      refine ⟨h, ?_⟩
      intro heq
      exact hany ((any_named_iff _ _).mpr (heq ▸ h))
    · exact fun h => h.1

theorem deleteIndex_api (r : NodeSimulatorReconciler σ) (nodeSim : NodeSimulator)
    (s : Run σ) (i : Int) :
    (deleteIndex r nodeSim s i).api
      = (r.Client.Delete { Node.zero with Name := nodeName nodeSim i } s.api).2 := by
  unfold deleteIndex
  simp only [NodeSimulatorReconciler.Delete]
  split
  · split <;> simp
  · simp

theorem foldl_deleteIndex_store (sim : NodeSimulator) (l : List Int) :
    ∀ s : Run Store,
      (l.foldl (deleteIndex storeReconciler sim) s).api.sims = s.api.sims ∧
      ∀ nm : String, nm ∈ (l.foldl (deleteIndex storeReconciler sim) s).api.names ↔
        nm ∈ s.api.names ∧ ∀ i ∈ l, nm ≠ nodeName sim i := by
  induction l with
  | nil => intro s; simp
  | cons i rest ih =>
    intro s
    obtain ⟨h1, h2⟩ := ih (deleteIndex storeReconciler sim s i)
    have hd := store_Delete_names { Node.zero with Name := nodeName sim i } s.api
    have hapi : (deleteIndex storeReconciler sim s i).api
        = (storeClient.Delete { Node.zero with Name := nodeName sim i } s.api).2 :=
      deleteIndex_api storeReconciler sim s i
    rw [List.foldl_cons]
    refine ⟨by rw [h1, hapi, hd.1], ?_⟩
    intro nm
    rw [h2 nm, hapi, hd.2 nm]
    simp only [ne_eq, List.mem_cons, forall_eq_or_imp]
    tauto

theorem mem_loopRange (lo hi i : Int) : i ∈ loopRange lo hi ↔ lo ≤ i ∧ i < hi := by
  unfold loopRange
  constructor
  · intro h
    obtain ⟨k, hk, rfl⟩ := List.mem_map.mp h
    have hk2 := List.mem_range.mp hk
    omega
  · intro h
    refine List.mem_map.mpr ⟨(i - lo).toNat, List.mem_range.mpr ?_, ?_⟩
    · omega
    · omega

theorem deleteNodes_store (items : Option (List Node)) (sim : NodeSimulator) (s : Run Store) :
    (deleteNodes storeReconciler items sim s).api.sims = s.api.sims ∧
    (∀ nm ∈ s.api.names, (∀ i : Int, sim.Spec.Number ≤ i → nm ≠ nodeName sim i) →
      nm ∈ (deleteNodes storeReconciler items sim s).api.names) ∧
    (∀ nm ∈ (deleteNodes storeReconciler items sim s).api.names, nm ∈ s.api.names) := by
  unfold deleteNodes
  split
  · split
    · rename_i l hlen
      obtain ⟨h1, h2⟩ := foldl_deleteIndex_store sim (loopRange sim.Spec.Number l.length) s
      refine ⟨h1, ?_, ?_⟩
      · intro nm hnm hne
        rw [h2 nm]
        exact ⟨hnm, fun i hi => hne i ((mem_loopRange _ _ i).mp hi).1⟩
      · intro nm hnm
        exact ((h2 nm).mp hnm).1
    · exact ⟨rfl, fun nm hnm _ => hnm, fun nm hnm => hnm⟩
  · exact ⟨rfl, fun nm hnm _ => hnm, fun nm hnm => hnm⟩

theorem keyMatches_eq (req : NamespacedName) (x : NodeSimulator)
    (h : keyMatches req x = true) : keyOf x = req := by
  simp only [keyMatches, Bool.and_eq_true, beq_iff_eq] at h
  cases req
  simp only [keyOf, NamespacedName.mk.injEq]
  exact h

theorem find_replace (q : NodeSimulator → Bool) (b : NodeSimulator) (hb : q b = true) :
    ∀ (l : List NodeSimulator) (a : NodeSimulator), l.find? q = some a →
      (l.map (fun x => if q x then b else x)).find? q = some b := by
  intro l
  induction l with
  | nil => intro a h; simp at h
  | cons x rest ih =>
    intro a h
    rw [List.map_cons, List.find?_cons]
    by_cases hx : q x = true
    · simp [hx, hb]
    · simp only [hx, Bool.false_eq_true, if_false]
      rw [List.find?_cons] at h
      simp only [hx] at h
      exact ih a h

theorem store_GetSim_found (req : NamespacedName) (st : Store) (sim : NodeSimulator)
    (h : st.sims.find? (keyMatches req) = some sim) :
    storeClient.GetSim req st = (.ok sim, st) := by
  simp [storeClient, h]

theorem store_GetSim_ok (req : NamespacedName) (st : Store) (sim : NodeSimulator)
    (h : (storeClient.GetSim req st).1 = .ok sim) :
    st.sims.find? (keyMatches req) = some sim := by
  simp only [storeClient] at h
  split at h
  · rename_i x hx
    simp only [Except.ok.injEq] at h
    rw [hx, h]
  · simp at h

theorem store_Update_found (req : NamespacedName) (st : Store) (sim obj : NodeSimulator)
    (hfind : st.sims.find? (keyMatches req) = some sim) (hkey : keyOf obj = req) :
    (storeClient.Update obj st).2.nodes = st.nodes ∧
    (storeClient.Update obj st).2.sims.find? (keyMatches req) = some obj := by
  have hsim : keyMatches req sim = true := List.find?_some hfind
  have hmem : sim ∈ st.sims := List.mem_of_find?_eq_some hfind
  have hany : st.sims.any (keyMatches req) = true := by
    rw [List.any_eq_true]
    exact ⟨sim, hmem, hsim⟩
  have hobj : keyMatches req obj = true := by
    rw [← hkey]
    simp [keyMatches, keyOf]
  simp only [storeClient, hkey]
  rw [if_pos hany]
  exact ⟨rfl, find_replace (keyMatches req) obj hobj st.sims sim hfind⟩

theorem setFinalizers_store (req : NamespacedName) (sim : NodeSimulator) (s : Run Store)
    (hfind : s.api.sims.find? (keyMatches req) = some sim) :
    (setFinalizers storeReconciler req sim s).1 = withFinalizer sim ∧
    (setFinalizers storeReconciler req sim s).2.api.nodes = s.api.nodes ∧
    (setFinalizers storeReconciler req sim s).2.api.sims.find? (keyMatches req)
      = some (withFinalizer sim) := by
  have hkey : keyOf sim = req := keyMatches_eq req sim (List.find?_some hfind)
  unfold setFinalizers withFinalizer
  split
  · have hu := store_Update_found req s.api sim
      { sim with Finalizers := some [NodeSimFinalizer] } hfind hkey
    have hg := store_GetSim_found req
      (storeClient.Update { sim with Finalizers := some [NodeSimFinalizer] } s.api).2
      { sim with Finalizers := some [NodeSimFinalizer] } hu.2
    simp only [NodeSimulatorReconciler.Update, NodeSimulatorReconciler.Get, storeReconciler,
      ite_klog_api, issue_api, hg]
    exact ⟨trivial, hu.1, hu.2⟩
  · exact ⟨rfl, rfl, hfind⟩

theorem Reconcile_run (p : NodePackage) (r : NodeSimulatorReconciler σ)
    (req : NamespacedName) (s : Run σ) (sim : NodeSimulator) (items : Option (List Node))
    (hget : (r.Client.GetSim req s.api).1 = .ok sim)
    (hlist : (r.Client.List (matchingLabels p sim) (r.Client.GetSim req s.api).2).1
      = .ok items) :
    (Reconcile p r req s).2
      = if (setFinalizers r req sim
            ((s.issue (Call.GetSim req) (r.Client.GetSim req s.api).2).issue
              (Call.List (matchingLabels p sim))
              (r.Client.List (matchingLabels p sim)
                (r.Client.GetSim req s.api).2).2)).1.DeletionTimestamp.isSome
        then deleteAll r items
          (setFinalizers r req sim
            ((s.issue (Call.GetSim req) (r.Client.GetSim req s.api).2).issue
              (Call.List (matchingLabels p sim))
              (r.Client.List (matchingLabels p sim) (r.Client.GetSim req s.api).2).2)).1
          (setFinalizers r req sim
            ((s.issue (Call.GetSim req) (r.Client.GetSim req s.api).2).issue
              (Call.List (matchingLabels p sim))
              (r.Client.List (matchingLabels p sim) (r.Client.GetSim req s.api).2).2)).2
        else SyncFakeNode p r
          (setFinalizers r req sim
            ((s.issue (Call.GetSim req) (r.Client.GetSim req s.api).2).issue
              (Call.List (matchingLabels p sim))
              (r.Client.List (matchingLabels p sim) (r.Client.GetSim req s.api).2).2)).1
          (deleteNodes r items
            (setFinalizers r req sim
              ((s.issue (Call.GetSim req) (r.Client.GetSim req s.api).2).issue
                (Call.List (matchingLabels p sim))
                (r.Client.List (matchingLabels p sim) (r.Client.GetSim req s.api).2).2)).1
            (setFinalizers r req sim
              ((s.issue (Call.GetSim req) (r.Client.GetSim req s.api).2).issue
                (Call.List (matchingLabels p sim))
                (r.Client.List (matchingLabels p sim) (r.Client.GetSim req s.api).2).2)).2) := by
  unfold Reconcile
  simp only [NodeSimulatorReconciler.Get, NodeSimulatorReconciler.List, hget, issue_api, hlist]
  split <;> rfl

theorem pass_store (p : NodePackage) (req : NamespacedName) (st : Store) (sim : NodeSimulator)
    (hfind : st.sims.find? (keyMatches req) = some sim)
    (hts : sim.DeletionTimestamp = none) :
    ∃ s1 : Run Store,
      s1.api.nodes = st.nodes ∧
      s1.api.sims.find? (keyMatches req) = some (withFinalizer sim) ∧
      s1.calls = [Call.GetSim req, Call.List (matchingLabels p sim)] ++ finalizerCalls req sim ∧
      (pass p req st).2
        = SyncFakeNode p storeReconciler (withFinalizer sim)
            (deleteNodes storeReconciler (some (observed p sim st)) (withFinalizer sim) s1) := by
  have hget : (storeReconciler.Client.GetSim req (Run.init st).api).1 = .ok sim := by
    have := store_GetSim_found req st sim hfind
    simp [storeReconciler, this]
  have hget2 : (storeReconciler.Client.GetSim req (Run.init st).api).2 = st := by
    have := store_GetSim_found req st sim hfind
    simp [storeReconciler, this]
  have hlist : (storeReconciler.Client.List (matchingLabels p sim)
      (storeReconciler.Client.GetSim req (Run.init st).api).2).1
        = .ok (some (observed p sim st)) := by
    rw [hget2]; rfl
  have hlist2 : (storeReconciler.Client.List (matchingLabels p sim)
      (storeReconciler.Client.GetSim req (Run.init st).api).2).2 = st := by
    rw [hget2]; rfl
  have hrun := Reconcile_run p storeReconciler req (Run.init st) sim
    (some (observed p sim st)) hget hlist
  rw [hlist2, hget2] at hrun
  have hs0 : (((Run.init st).issue (Call.GetSim req) st).issue
      (Call.List (matchingLabels p sim)) st).api.sims.find? (keyMatches req) = some sim := hfind
  obtain ⟨h1, h2, h3⟩ := setFinalizers_store req sim _ hs0
  have hc := setFinalizers_calls storeReconciler req sim
    (((Run.init st).issue (Call.GetSim req) st).issue (Call.List (matchingLabels p sim)) st)
  refine ⟨_, h2, h3, ?_, ?_⟩
  · rw [hc]; rfl
  · unfold pass
    rw [hrun, h1, (withFinalizer_fields sim).2.2.1, hts]
    rfl

/-! ## Claims on the pass over the reference store -/

theorem genNodeList_eq (held sim : NodeSimulator) (tmpl : Node) (N : Nat)
    (hns : held.Namespace = sim.Namespace) (hn : held.Name = sim.Name)
    (hnum : held.Spec.Number = (N : Int)) :
    genNodeList held tmpl
      = (List.range N).map (fun (i : Nat) => { tmpl with Name := nodeName sim (i : Int) }) := by
  unfold genNodeList
  rw [hnum, Int.toNat_ofNat]
  apply List.map_congr_left
  intro i _
  rw [nodeName_congr held sim hns hn]

theorem desired_names_nodup (sim : NodeSimulator) (tmpl : Node) (N : Nat) :
    (((List.range N).map
      (fun (i : Nat) => { tmpl with Name := nodeName sim (i : Int) })).map Node.Name).Nodup := by
  rw [List.map_map]
  apply List.Nodup.map _ (List.nodup_range N)
  intro i j h
  exact nodeName_natCast_injective sim i j h

theorem filter_isCreate_creates (l : List Node) :
    (l.flatMap (fun n => [Call.GetNode ⟨n.Namespace, n.Name⟩, Call.Create n])).filter
      Call.isCreate = l.map Call.Create := by
  induction l with
  | nil => rfl
  | cons n rest ih =>
    rw [List.flatMap_cons, List.filter_append, ih]
    simp [Call.isCreate, List.filter_cons]

theorem filter_isCreate_finalizerCalls (req : NamespacedName) (sim : NodeSimulator) :
    (finalizerCalls req sim).filter Call.isCreate = [] := by
  rw [List.filter_eq_nil_iff]
  intro c hc
  simp [(finalizerCalls_no_sync req sim c hc).1]

theorem pass_store_creates (p : NodePackage) (req : NamespacedName) (st : Store)
    (sim : NodeSimulator) (N : Nat)
    (hget : (storeClient.GetSim req st).1 = .ok sim)
    (hts : sim.DeletionTimestamp = none)
    (hnum : sim.Spec.Number = (N : Int)) (hN : 0 < N)
    (hnone : ∀ n ∈ st.nodes, hasLabels (matchingLabels p sim) n = false ∧
      ∀ i : Nat, i < N → n.Name ≠ nodeName sim (i : Int))
    (hgen : ∀ x : NodeSimulator, ∃ t : Node, p.GenNode x = .ok t) :
    ∃ tmpl : Node,
      (pass p req st).2.calls.filter Call.isCreate
        = (List.range N).map
            (fun (i : Nat) => Call.Create { tmpl with Name := nodeName sim (i : Int) }) ∧
      (pass p req st).2.api.nodes
        = st.nodes ++ (List.range N).map
            (fun (i : Nat) => { tmpl with Name := nodeName sim (i : Int) }) ∧
      (∀ c ∈ (pass p req st).2.calls, c.isDelete = false ∧ c.isPatch = false) := by
  have hfind := store_GetSim_ok req st sim hget
  obtain ⟨s1, hnodes, -, hcalls, hrun⟩ := pass_store p req st sim hfind hts
  obtain ⟨hns, hn, -, hspec, -⟩ := withFinalizer_fields sim
  have hnumh : (withFinalizer sim).Spec.Number = (N : Int) := by rw [hspec, hnum]
  obtain ⟨tmpl, htmpl⟩ := hgen (withFinalizer sim)
  have hobs : observed p sim st = [] := by
    unfold observed
    rw [List.filter_eq_nil_iff]
    intro n hn'
    simp [(hnone n hn').1]
  have hdel : deleteNodes storeReconciler (some (observed p sim st)) (withFinalizer sim) s1
      = s1 := by
    unfold deleteNodes
    simp only [hobs, List.length_nil, hnumh]
    rw [if_neg (by omega)]
  have hsync : SyncFakeNode p storeReconciler (withFinalizer sim) s1
      = ParallelizeSyncNode 5
          ((List.range N).map (fun (i : Nat) => { tmpl with Name := nodeName sim (i : Int) }))
          (Do storeReconciler) s1 := by
    unfold SyncFakeNode
    rw [if_neg (by omega), htmpl]
    simp only
    rw [genNodeList_eq (withFinalizer sim) sim tmpl N hns hn hnumh]
  have hfresh : ∀ n ∈ (List.range N).map
      (fun (i : Nat) => { tmpl with Name := nodeName sim (i : Int) }),
      n.Name ∉ s1.api.names := by
    intro n hn' hmem
    obtain ⟨i, hi, rfl⟩ := List.mem_map.mp hn'
    simp only [Store.names, hnodes] at hmem
    obtain ⟨m, hm, hname⟩ := List.mem_map.mp hmem
    exact (hnone m hm).2 i (List.mem_range.mp hi) hname
  obtain ⟨hapi, hc⟩ := fold_Do_fresh 5 _ s1 (desired_names_nodup sim tmpl N) hfresh
  rw [hdel, hsync] at hrun
  have hcalls' : (pass p req st).2.calls
      = [Call.GetSim req, Call.List (matchingLabels p sim)] ++ finalizerCalls req sim
          ++ ((List.range N).map
              (fun (i : Nat) => { tmpl with Name := nodeName sim (i : Int) })).flatMap
              (fun n => [Call.GetNode ⟨n.Namespace, n.Name⟩, Call.Create n]) := by
    rw [hrun, hc, hcalls]
  refine ⟨tmpl, ?_, ?_, ?_⟩
  · rw [hcalls', List.filter_append, List.filter_append, filter_isCreate_creates,
      filter_isCreate_finalizerCalls, List.map_map]
    simp [Call.isCreate, List.filter_cons]
  · rw [hrun, hapi, hnodes]
  · intro c hc'
    rw [hcalls'] at hc'
    simp only [List.mem_append, List.mem_cons, List.mem_singleton, List.not_mem_nil, or_false,
      List.mem_flatMap] at hc'
    rcases hc' with (h | h) | h
    · rcases h with h | h <;> subst h <;> exact ⟨rfl, rfl⟩
    · exact ⟨(finalizerCalls_no_sync req sim c h).2.2.1, (finalizerCalls_no_sync req sim c h).2.1⟩
    · obtain ⟨n, -, h | h⟩ := h <;> subst h <;> exact ⟨rfl, rfl⟩

theorem nodeName_format (req : NamespacedName) (sim : NodeSimulator)
    (hkey : keyOf sim = req) (i : Nat) :
    nodeName sim (i : Int) = req.Namespace ++ "-" ++ req.Name ++ "-" ++ toString i := by
  subst hkey
  rfl

/-- C3 (counterexample): the store holds no managed entry of `default/sim1`
(the list by the labels of the resource is empty), the desired count is 3,
the template builder and every store call succeed, but a node without
labels is already named `default-sim1-0`: the pass finds it by name,
patches it, and creates only `default-sim1-1` and `default-sim1-2`. -/
theorem named_node_is_patched :
    (storeClient.List (matchingLabels samplePackage (sampleSim (some [NodeSimFinalizer]) none 3))
      ⟨[sampleSim (some [NodeSimFinalizer]) none 3],
        [⟨"default-sim1-0", "", [], "real", "Ready"⟩]⟩).1 = .ok (some []) ∧
    (pass samplePackage sampleReq
      ⟨[sampleSim (some [NodeSimFinalizer]) none 3],
        [⟨"default-sim1-0", "", [], "real", "Ready"⟩]⟩).2.calls
      = [Call.GetSim sampleReq,
         Call.List (matchingLabels samplePackage (sampleSim (some [NodeSimFinalizer]) none 3)),
         Call.GetNode ⟨"", "default-sim1-0"⟩,
         Call.Patch { sampleNode 0 with Name := "default-sim1-0" }
           ⟨[⟨"replace", "/spec", "tmpl"⟩]⟩,
         Call.StatusPatch { sampleNode 0 with Name := "default-sim1-0" }
           ⟨[⟨"replace", "/status", "Ready"⟩]⟩,
         Call.GetNode ⟨"", "default-sim1-1"⟩,
         Call.Create { sampleNode 0 with Name := "default-sim1-1" },
         Call.GetNode ⟨"", "default-sim1-2"⟩,
         Call.Create { sampleNode 0 with Name := "default-sim1-2" }] := by
  refine ⟨rfl, by decide⟩

/-- C3 (amended): in the reference store, for a resource `(ns, name)` without
deletion timestamp whose desired count is `N > 0`, when no node of the
store carries the labels of the resource (no managed entry exists), no
node of the store is named `<ns>-<name>-<i>` for an `i < N`, and the
template builder succeeds, the creates of one pass are exactly one create
per `i = 0 .. N-1`, of the copy of the template named `<ns>-<name>-<i>`
with `i` in decimal, and no other create; the pass issues no delete and
no patch; and the store afterwards holds the nodes it held before and
exactly these `N` entries.  Creates and nodes are stated up to order. -/
theorem convergence (p : NodePackage) (req : NamespacedName) (st : Store)
    (sim : NodeSimulator) (N : Nat)
    (hget : (storeClient.GetSim req st).1 = .ok sim)
    (hts : sim.DeletionTimestamp = none)
    (hnum : sim.Spec.Number = (N : Int)) (hN : 0 < N)
    (hnone : ∀ n ∈ st.nodes, hasLabels (matchingLabels p sim) n = false)
    (hfree : ∀ n ∈ st.nodes, ∀ i : Nat, i < N →
      n.Name ≠ req.Namespace ++ "-" ++ req.Name ++ "-" ++ toString i)
    (hgen : ∀ x : NodeSimulator, ∃ t : Node, p.GenNode x = .ok t) :
    ∃ tmpl : Node,
      ((pass p req st).2.calls.filter Call.isCreate).Perm
        ((List.range N).map
          (fun (i : Nat) => Call.Create
            { tmpl with Name := req.Namespace ++ "-" ++ req.Name ++ "-" ++ toString i })) ∧
      (pass p req st).2.api.nodes.Perm
        (st.nodes ++ (List.range N).map
          (fun (i : Nat) =>
            { tmpl with Name := req.Namespace ++ "-" ++ req.Name ++ "-" ++ toString i })) ∧
      (∀ c ∈ (pass p req st).2.calls, c.isDelete = false ∧ c.isPatch = false) := by
  have hkey : keyOf sim = req :=
    keyMatches_eq req sim (List.find?_some (store_GetSim_ok req st sim hget))
  have hname := nodeName_format req sim hkey
  obtain ⟨tmpl, h1, h2, h3⟩ := pass_store_creates p req st sim N hget hts hnum hN
    (fun n hn => ⟨hnone n hn, fun i hi => by rw [hname i]; exact hfree n hn i hi⟩) hgen
  refine ⟨tmpl, ?_, ?_, h3⟩
  · rw [h1]
    simp only [hname]
    exact List.Perm.refl _
  · rw [h2]
    simp only [hname]
    exact List.Perm.refl _

/-- C3 (amended), at the resource `default/sim1` with a desired count of 3 in
a store that holds one node of its own. -/
theorem convergence_witness :
    ∃ tmpl : Node,
      ((pass samplePackage sampleReq
        ⟨[sampleSim none none 3], [⟨"worker-1", "", [], "real", "Ready"⟩]⟩).2.calls.filter
          Call.isCreate).Perm
        ((List.range 3).map
          (fun (i : Nat) => Call.Create
            { tmpl with
              Name := sampleReq.Namespace ++ "-" ++ sampleReq.Name ++ "-" ++ toString i })) ∧
      (pass samplePackage sampleReq
        ⟨[sampleSim none none 3], [⟨"worker-1", "", [], "real", "Ready"⟩]⟩).2.api.nodes.Perm
        ([⟨"worker-1", "", [], "real", "Ready"⟩] ++ (List.range 3).map
          (fun (i : Nat) =>
            { tmpl with
              Name := sampleReq.Namespace ++ "-" ++ sampleReq.Name ++ "-" ++ toString i })) ∧
      (∀ c ∈ (pass samplePackage sampleReq
        ⟨[sampleSim none none 3], [⟨"worker-1", "", [], "real", "Ready"⟩]⟩).2.calls,
        c.isDelete = false ∧ c.isPatch = false) :=
  convergence samplePackage sampleReq
    ⟨[sampleSim none none 3], [⟨"worker-1", "", [], "real", "Ready"⟩]⟩
    (sampleSim none none 3) 3 rfl rfl rfl (by decide) (by decide) (by decide)
    (fun _ => ⟨_, rfl⟩)

theorem loopRange_natCast (N M : Nat) :
    loopRange (N : Int) (M : Int) = (List.range' N (M - N)).map (fun (i : Nat) => (i : Int)) := by
  unfold loopRange
  have h : ((M : Int) - (N : Int)).toNat = M - N := by omega
  rw [h, List.range'_eq_map_range, List.map_map]
  apply List.map_congr_left
  intro k _
  simp

theorem filter_isPatch_patches (l : List Node) :
    (l.flatMap (fun n => [Call.GetNode ⟨n.Namespace, n.Name⟩,
        Call.Patch n ⟨[⟨"replace", "/spec", n.Spec⟩]⟩,
        Call.StatusPatch n ⟨[⟨"replace", "/status", n.Status⟩]⟩])).filter Call.isPatch
      = l.flatMap (fun n => [Call.Patch n ⟨[⟨"replace", "/spec", n.Spec⟩]⟩,
        Call.StatusPatch n ⟨[⟨"replace", "/status", n.Status⟩]⟩]) := by
  induction l with
  | nil => rfl
  | cons n rest ih =>
    rw [List.flatMap_cons, List.flatMap_cons, List.filter_append, ih]
    simp [Call.isPatch, List.filter_cons]

theorem patches_isSync (l : List Node) :
    ∀ c ∈ l.flatMap (fun n => [Call.GetNode ⟨n.Namespace, n.Name⟩,
        Call.Patch n ⟨[⟨"replace", "/spec", n.Spec⟩]⟩,
        Call.StatusPatch n ⟨[⟨"replace", "/status", n.Status⟩]⟩]),
      c.isSync = true ∧ c.isCreate = false := by
  intro c hc
  obtain ⟨n, -, hn⟩ := List.mem_flatMap.mp hc
  simp only [List.mem_cons, List.mem_singleton, List.not_mem_nil, or_false] at hn
  rcases hn with h | h | h <;> subst h <;> exact ⟨rfl, rfl⟩

theorem filter_isPatch_finalizerCalls (req : NamespacedName) (sim : NodeSimulator) :
    (finalizerCalls req sim).filter Call.isPatch = [] := by
  rw [List.filter_eq_nil_iff]
  intro c hc
  simp [(finalizerCalls_no_sync req sim c hc).2.1]

theorem filter_isPatch_indexDeletes (sim : NodeSimulator) (lo hi : Int) :
    (indexDeletes sim lo hi).filter Call.isPatch = [] := by
  rw [List.filter_eq_nil_iff]
  intro c hc
  unfold indexDeletes at hc
  obtain ⟨i, -, rfl⟩ := List.mem_map.mp hc
  simp [Call.isPatch]

theorem desired_name_kept (sim held : NodeSimulator) (N j : Nat)
    (hns : held.Namespace = sim.Namespace) (hn : held.Name = sim.Name)
    (hnum : held.Spec.Number = (N : Int)) (hj : j < N) :
    ∀ i : Int, held.Spec.Number ≤ i → nodeName sim (j : Int) ≠ nodeName held i := by
  intro i hi heq
  rw [nodeName_congr held sim hns hn] at heq
  have hi0 : i = ((i.toNat : Nat) : Int) := by omega
  rw [hi0] at heq
  have := nodeName_natCast_injective sim j i.toNat heq
  omega

theorem pass_store_patches (p : NodePackage) (req : NamespacedName) (st : Store)
    (sim : NodeSimulator) (N : Nat) (tmpl : Node)
    (hfind : st.sims.find? (keyMatches req) = some sim)
    (hts : sim.DeletionTimestamp = none)
    (hnum : sim.Spec.Number = (N : Int)) (hN : 0 < N)
    (hgen : p.GenNode (withFinalizer sim) = .ok tmpl)
    (hpresent : ∀ j : Nat, j < N → nodeName sim (j : Int) ∈ st.names) :
    (pass p req st).2.calls
      = [Call.GetSim req, Call.List (matchingLabels p sim)] ++ finalizerCalls req sim
          ++ scaleDownCalls (some (observed p sim st)) (withFinalizer sim)
          ++ (desiredNodes sim tmpl N).flatMap
              (fun n => [Call.GetNode ⟨n.Namespace, n.Name⟩,
                Call.Patch n ⟨[⟨"replace", "/spec", n.Spec⟩]⟩,
                Call.StatusPatch n ⟨[⟨"replace", "/status", n.Status⟩]⟩]) := by
  obtain ⟨s1, hnodes, -, hcalls, hrun⟩ := pass_store p req st sim hfind hts
  obtain ⟨hns, hn, -, hspec, -⟩ := withFinalizer_fields sim
  have hnumh : (withFinalizer sim).Spec.Number = (N : Int) := by rw [hspec, hnum]
  have hsync : ∀ s : Run Store, SyncFakeNode p storeReconciler (withFinalizer sim) s
      = ParallelizeSyncNode 5 (desiredNodes sim tmpl N) (Do storeReconciler) s := by
    intro s
    unfold SyncFakeNode
    rw [if_neg (by omega), hgen]
    simp only
    rw [genNodeList_eq (withFinalizer sim) sim tmpl N hns hn hnumh]
    rfl
  obtain ⟨-, hkeep, -⟩ :=
    deleteNodes_store (some (observed p sim st)) (withFinalizer sim) s1
  have hall : ∀ n ∈ desiredNodes sim tmpl N,
      n.Name ∈ (deleteNodes storeReconciler (some (observed p sim st))
        (withFinalizer sim) s1).api.names := by
    intro n hn'
    obtain ⟨j, hj, rfl⟩ := List.mem_map.mp hn'
    have hj' := List.mem_range.mp hj
    apply hkeep
    · simp only [Store.names, hnodes]
      exact hpresent j hj'
    · exact desired_name_kept sim (withFinalizer sim) N j hns hn hnumh hj'
  obtain ⟨-, -, hc⟩ := fold_Do_present 5 (desiredNodes sim tmpl N) _ hall
  rw [hrun, hsync, hc, deleteNodes_calls, hcalls]

theorem pass_store_nosync (p : NodePackage) (req : NamespacedName) (st : Store)
    (sim : NodeSimulator)
    (hfind : st.sims.find? (keyMatches req) = some sim)
    (hts : sim.DeletionTimestamp = none)
    (hno : sim.Spec.Number ≤ 0 ∨ ∃ e : Err, p.GenNode (withFinalizer sim) = .error e) :
    (pass p req st).2.calls
      = [Call.GetSim req, Call.List (matchingLabels p sim)] ++ finalizerCalls req sim
          ++ scaleDownCalls (some (observed p sim st)) (withFinalizer sim) := by
  obtain ⟨s1, -, -, hcalls, hrun⟩ := pass_store p req st sim hfind hts
  obtain ⟨-, -, -, hspec, -⟩ := withFinalizer_fields sim
  have hsync : ∀ s : Run Store, SyncFakeNode p storeReconciler (withFinalizer sim) s = s := by
    intro s
    unfold SyncFakeNode
    rw [hspec]
    by_cases h0 : sim.Spec.Number ≤ 0
    · rw [if_pos h0]
    · rw [if_neg h0]
      rcases hno with h | ⟨e, he⟩
      · exact absurd h h0
      · rw [he]
  rw [hrun, hsync, deleteNodes_calls, hcalls]

/-- C2 (counterexample): the store holds the managed nodes of indices 0, 1
and 2 of `default/sim1`, the desired count is 1 and every store call
succeeds, but the template builder fails: the pass deletes
`default-sim1-1` and `default-sim1-2` and issues no patch for
`default-sim1-0`. -/
theorem no_patch_without_template :
    (pass failingPackage sampleReq
      ⟨[sampleSim (some [NodeSimFinalizer]) none 1],
        [sampleNode 0, sampleNode 1, sampleNode 2]⟩).2.calls
      = [Call.GetSim sampleReq,
         Call.List (matchingLabels failingPackage (sampleSim (some [NodeSimFinalizer]) none 1)),
         Call.Delete { Node.zero with Name := "default-sim1-1" },
         Call.Delete { Node.zero with Name := "default-sim1-2" }] := by
  decide

/-- C2 (amended): in the reference store, for a resource without deletion
timestamp and `0 < N < M`, if the observed managed entries are exactly
those named `<ns>-<name>-<i>` for `0 ≤ i < M`, `spec.Number = N`, and the
template builder succeeds, then the deletes of one pass are exactly one
per name with `N ≤ i < M`, in increasing order (so none for a name with
`i < N`), its patches are exactly a `/spec` patch followed by a `/status`
patch for each name with `0 ≤ i < N`, and it issues no create. -/
theorem shrink_to_count (p : NodePackage) (req : NamespacedName) (st : Store)
    (sim : NodeSimulator) (N M : Nat) (obs : List Node)
    (hget : (storeClient.GetSim req st).1 = .ok sim)
    (hts : sim.DeletionTimestamp = none)
    (hnum : sim.Spec.Number = (N : Int)) (hN : 0 < N) (hNM : N < M)
    (hlist : (storeClient.List (matchingLabels p sim) st).1 = .ok (some obs))
    (hobs : (obs.map Node.Name).Perm
      ((List.range M).map (fun (i : Nat) => nodeName sim (i : Int))))
    (hgen : ∀ x : NodeSimulator, ∃ t : Node, p.GenNode x = .ok t) :
    ∃ tmpl : Node,
      (pass p req st).2.calls.filter Call.isDelete
        = (List.range' N (M - N)).map
            (fun (i : Nat) => Call.Delete { Node.zero with Name := nodeName sim (i : Int) }) ∧
      (pass p req st).2.calls.filter Call.isPatch
        = (List.range N).flatMap
            (fun (i : Nat) =>
              [Call.Patch { tmpl with Name := nodeName sim (i : Int) }
                 ⟨[⟨"replace", "/spec", tmpl.Spec⟩]⟩,
               Call.StatusPatch { tmpl with Name := nodeName sim (i : Int) }
                 ⟨[⟨"replace", "/status", tmpl.Status⟩]⟩]) ∧
      (∀ c ∈ (pass p req st).2.calls, c.isCreate = false) := by
  have hfind := store_GetSim_ok req st sim hget
  obtain ⟨hns, hn, -, hspec, -⟩ := withFinalizer_fields sim
  have hnumh : (withFinalizer sim).Spec.Number = (N : Int) := by rw [hspec, hnum]
  obtain ⟨tmpl, htmpl⟩ := hgen (withFinalizer sim)
  have hobs' : obs = observed p sim st := by
    have : (storeClient.List (matchingLabels p sim) st).1
        = .ok (some (observed p sim st)) := rfl
    rw [this] at hlist
    simpa using hlist.symm
  have hlen : obs.length = M := by
    have := hobs.length_eq
    simpa using this
  have hpresent : ∀ j : Nat, j < N → nodeName sim (j : Int) ∈ st.names := by
    intro j hj
    have hmem : nodeName sim (j : Int) ∈ obs.map Node.Name :=
      hobs.mem_iff.mpr (List.mem_map.mpr ⟨j, List.mem_range.mpr (by omega), rfl⟩)
    obtain ⟨n, hn', hname⟩ := List.mem_map.mp hmem
    rw [hobs'] at hn'
    exact List.mem_map.mpr ⟨n, (List.mem_filter.mp hn').1, hname⟩
  have hcalls := pass_store_patches p req st sim N tmpl hfind hts hnum hN htmpl hpresent
  have hsd : scaleDownCalls (some (observed p sim st)) (withFinalizer sim)
      = indexDeletes sim (N : Int) (M : Int) := by
    unfold scaleDownCalls
    simp only [← hobs', hlen, hnumh]
    rw [if_pos (by omega), indexDeletes_congr (withFinalizer sim) sim hns hn]
  rw [hsd] at hcalls
  refine ⟨tmpl, ?_, ?_, ?_⟩
  · rw [hcalls]
    simp only [List.filter_append, filter_isDelete_finalizerCalls,
      filter_isDelete_indexDeletes,
      filter_isDelete_of_isSync _ (fun c hc => (patches_isSync _ c hc).1), List.append_nil]
    simp only [indexDeletes, loopRange_natCast, List.map_map]
    simp [Call.isDelete, List.filter_cons]
  · rw [hcalls]
    simp only [List.filter_append, filter_isPatch_finalizerCalls, filter_isPatch_indexDeletes,
      filter_isPatch_patches, List.append_nil]
    simp [Call.isPatch, List.filter_cons, desiredNodes, List.flatMap_map]
  · intro c hc
    rw [hcalls] at hc
    simp only [List.mem_append, List.mem_cons, List.mem_singleton, List.not_mem_nil,
      or_false] at hc
    rcases hc with ((h | h) | h) | h
    · rcases h with h | h <;> subst h <;> rfl
    · exact (finalizerCalls_no_sync req sim c h).1
    · unfold indexDeletes at h
      obtain ⟨i, -, rfl⟩ := List.mem_map.mp h
      rfl
    · exact (patches_isSync _ c h).2

/-- C2 (amended), at the store of the counterexample with a template
builder that succeeds, the managed nodes listed in another order. -/
theorem shrink_to_count_witness :
    ∃ tmpl : Node,
      (pass samplePackage sampleReq
        ⟨[sampleSim (some [NodeSimFinalizer]) none 1],
          [sampleNode 2, sampleNode 0, sampleNode 1]⟩).2.calls.filter Call.isDelete
        = (List.range' 1 (3 - 1)).map
            (fun (i : Nat) => Call.Delete
              { Node.zero with
                Name := nodeName (sampleSim (some [NodeSimFinalizer]) none 1) (i : Int) }) ∧
      (pass samplePackage sampleReq
        ⟨[sampleSim (some [NodeSimFinalizer]) none 1],
          [sampleNode 2, sampleNode 0, sampleNode 1]⟩).2.calls.filter Call.isPatch
        = (List.range 1).flatMap
            (fun (i : Nat) =>
              [Call.Patch
                 { tmpl with
                   Name := nodeName (sampleSim (some [NodeSimFinalizer]) none 1) (i : Int) }
                 ⟨[⟨"replace", "/spec", tmpl.Spec⟩]⟩,
               Call.StatusPatch
                 { tmpl with
                   Name := nodeName (sampleSim (some [NodeSimFinalizer]) none 1) (i : Int) }
                 ⟨[⟨"replace", "/status", tmpl.Status⟩]⟩]) ∧
      (∀ c ∈ (pass samplePackage sampleReq
        ⟨[sampleSim (some [NodeSimFinalizer]) none 1],
          [sampleNode 2, sampleNode 0, sampleNode 1]⟩).2.calls, c.isCreate = false) :=
  shrink_to_count samplePackage sampleReq
    ⟨[sampleSim (some [NodeSimFinalizer]) none 1], [sampleNode 2, sampleNode 0, sampleNode 1]⟩
    (sampleSim (some [NodeSimFinalizer]) none 1) 1 3 [sampleNode 2, sampleNode 0, sampleNode 1]
    rfl rfl rfl (by decide) (by decide) rfl (by decide) (fun _ => ⟨_, rfl⟩)

theorem SyncFakeNode_store (p : NodePackage) (x : NodeSimulator) (s : Run Store) :
    (SyncFakeNode p storeReconciler x s).api.sims = s.api.sims ∧
    (∀ tmpl : Node, 0 < x.Spec.Number → p.GenNode x = .ok tmpl →
      ∀ n ∈ genNodeList x tmpl, n.Name ∈ (SyncFakeNode p storeReconciler x s).api.names) := by
  unfold SyncFakeNode
  by_cases h0 : x.Spec.Number ≤ 0
  · rw [if_pos h0]
    exact ⟨rfl, fun _ hpos => by omega⟩
  · rw [if_neg h0]
    cases hg : p.GenNode x with
    | error e => exact ⟨rfl, fun _ _ h => by simp at h⟩
    | ok t =>
      simp only
      obtain ⟨h1, -, h3⟩ := fold_Do_grows 5 (genNodeList x t) s
      refine ⟨h1, ?_⟩
      intro tmpl _ ht
      have : t = tmpl := by simpa using ht
      rw [← this]
      exact h3

theorem withFinalizer_of_some (x : NodeSimulator) (h : x.Finalizers ≠ none) :
    withFinalizer x = x := by
  unfold withFinalizer
  split
  · rename_i hnil; exact absurd hnil h
  · rfl

theorem finalizerCalls_of_some (req : NamespacedName) (x : NodeSimulator)
    (h : x.Finalizers ≠ none) : finalizerCalls req x = [] := by
  unfold finalizerCalls
  split
  · rename_i hnil; exact absurd hnil h
  · rfl

theorem pass_store_after (p : NodePackage) (req : NamespacedName) (st : Store)
    (sim : NodeSimulator)
    (hfind : st.sims.find? (keyMatches req) = some sim)
    (hts : sim.DeletionTimestamp = none) :
    (pass p req st).2.api.sims.find? (keyMatches req) = some (withFinalizer sim) ∧
    (∀ tmpl : Node, 0 < (withFinalizer sim).Spec.Number →
      p.GenNode (withFinalizer sim) = .ok tmpl →
      ∀ n ∈ genNodeList (withFinalizer sim) tmpl, n.Name ∈ (pass p req st).2.api.names) := by
  obtain ⟨s1, -, hsims, -, hrun⟩ := pass_store p req st sim hfind hts
  obtain ⟨h1, h2⟩ := SyncFakeNode_store p (withFinalizer sim)
    (deleteNodes storeReconciler (some (observed p sim st)) (withFinalizer sim) s1)
  rw [hrun]
  refine ⟨?_, h2⟩
  rw [h1, (deleteNodes_store (some (observed p sim st)) (withFinalizer sim) s1).1]
  exact hsims

theorem matchingLabels_congr (p : NodePackage) (x y : NodeSimulator)
    (hns : x.Namespace = y.Namespace) (hn : x.Name = y.Name) :
    matchingLabels p x = matchingLabels p y := by
  simp [matchingLabels, hns, hn]

theorem scaleDownCalls_congr (items : Option (List Node)) (x y : NodeSimulator)
    (hns : x.Namespace = y.Namespace) (hn : x.Name = y.Name) (hspec : x.Spec = y.Spec) :
    scaleDownCalls items x = scaleDownCalls items y := by
  unfold scaleDownCalls
  rw [hspec]
  split
  · rw [indexDeletes_congr x y hns hn]
  · rfl

theorem second_pass_shape (p : NodePackage) (req : NamespacedName) (st : Store)
    (sim : NodeSimulator)
    (hget : (storeClient.GetSim req st).1 = .ok sim)
    (hts : sim.DeletionTimestamp = none) :
    ∃ t : List Call,
      (pass p req (pass p req st).2.api).2.calls
        = [Call.GetSim req, Call.List (matchingLabels p sim)]
            ++ scaleDownCalls (some (observed p sim (pass p req st).2.api)) sim ++ t ∧
      ∀ c ∈ t, ∃ (j : Nat) (n : Node), (j : Int) < sim.Spec.Number ∧
        n.Name = nodeName sim (j : Int) ∧
        (c = Call.GetNode ⟨n.Namespace, n.Name⟩ ∨
          c = Call.Patch n ⟨[⟨"replace", "/spec", n.Spec⟩]⟩ ∨
          c = Call.StatusPatch n ⟨[⟨"replace", "/status", n.Status⟩]⟩) := by
  have hfind := store_GetSim_ok req st sim hget
  obtain ⟨hfind2, hpres⟩ := pass_store_after p req st sim hfind hts
  obtain ⟨hns, hn, hdts, hspec, hfin⟩ := withFinalizer_fields sim
  have hts2 : (withFinalizer sim).DeletionTimestamp = none := by rw [hdts, hts]
  have hwf := withFinalizer_of_some (withFinalizer sim) hfin
  have hfc := finalizerCalls_of_some req (withFinalizer sim) hfin
  have hml := matchingLabels_congr p (withFinalizer sim) sim hns hn
  have hobs : observed p (withFinalizer sim) (pass p req st).2.api
      = observed p sim (pass p req st).2.api := by
    unfold observed
    rw [hml]
  have hsd := scaleDownCalls_congr (some (observed p sim (pass p req st).2.api))
    (withFinalizer sim) sim hns hn hspec
  by_cases hpos : 0 < sim.Spec.Number
  · cases hg : p.GenNode (withFinalizer sim) with
    | error e =>
      have h := pass_store_nosync p req (pass p req st).2.api (withFinalizer sim) hfind2 hts2
        (Or.inr ⟨e, by rw [hwf]; exact hg⟩)
      rw [hwf, hfc, hml, hobs, hsd] at h
      exact ⟨[], by rw [h]; simp, by simp⟩
    | ok tmpl =>
      have hnum : (withFinalizer sim).Spec.Number = ((sim.Spec.Number.toNat : Nat) : Int) := by
        rw [hspec]; omega
      have hN : 0 < sim.Spec.Number.toNat := by omega
      have hlist := genNodeList_eq (withFinalizer sim) (withFinalizer sim) tmpl
        sim.Spec.Number.toNat rfl rfl hnum
      have hpresent : ∀ j : Nat, j < sim.Spec.Number.toNat →
          nodeName (withFinalizer sim) (j : Int) ∈ (pass p req st).2.api.names := by
        intro j hj
        have hmem : ({ tmpl with Name := nodeName (withFinalizer sim) (j : Int) } : Node)
            ∈ genNodeList (withFinalizer sim) tmpl := by
          rw [hlist]
          exact List.mem_map.mpr ⟨j, List.mem_range.mpr hj, rfl⟩
        exact hpres tmpl (by rw [hspec]; exact hpos) hg _ hmem
      have h := pass_store_patches p req (pass p req st).2.api (withFinalizer sim)
        sim.Spec.Number.toNat tmpl hfind2 hts2 hnum hN (by rw [hwf]; exact hg) hpresent
      rw [hwf, hfc, hml, hobs, hsd] at h
      refine ⟨(desiredNodes (withFinalizer sim) tmpl sim.Spec.Number.toNat).flatMap
        (fun n => [Call.GetNode ⟨n.Namespace, n.Name⟩,
          Call.Patch n ⟨[⟨"replace", "/spec", n.Spec⟩]⟩,
          Call.StatusPatch n ⟨[⟨"replace", "/status", n.Status⟩]⟩]), by rw [h]; simp, ?_⟩
      intro c hc
      obtain ⟨n, hn', hcn⟩ := List.mem_flatMap.mp hc
      obtain ⟨j, hj, rfl⟩ := List.mem_map.mp hn'
      have hj' := List.mem_range.mp hj
      refine ⟨j, { tmpl with Name := nodeName (withFinalizer sim) (j : Int) }, by omega, ?_, ?_⟩
      · exact nodeName_congr (withFinalizer sim) sim hns hn j
      · simpa using hcn
  · have h := pass_store_nosync p req (pass p req st).2.api (withFinalizer sim) hfind2 hts2
      (Or.inl (by rw [hspec]; omega))
    rw [hwf, hfc, hml, hobs, hsd] at h
    exact ⟨[], by rw [h]; simp, by simp⟩

/-- C4 (counterexample): the store holds two managed nodes of `default/sim1`
left over at indices 3 and 4 and the desired count is 1.  The first pass
creates `default-sim1-0`; the second pass, run right after it on the
resulting store, observes three nodes and issues two deletes, to
`default-sim1-1` and `default-sim1-2`: it does not issue fetches and
patches only. -/
theorem rerun_issues_deletes :
    (pass samplePackage sampleReq
      ⟨[sampleSim (some [NodeSimFinalizer]) none 1],
        [sampleNode 3, sampleNode 4]⟩).2.api.nodes
      = [sampleNode 3, sampleNode 4, sampleNode 0] ∧
    (pass samplePackage sampleReq
      (pass samplePackage sampleReq
        ⟨[sampleSim (some [NodeSimFinalizer]) none 1],
          [sampleNode 3, sampleNode 4]⟩).2.api).2.calls.filter Call.isDelete
      = [Call.Delete { Node.zero with Name := "default-sim1-1" },
         Call.Delete { Node.zero with Name := "default-sim1-2" }] := by
  decide

/-- C4 (amended): in the reference store, for a resource without deletion
timestamp and every store state, the second of two passes run one after
the other issues no create and no update.  Its calls are the fetch of the
resource, the list, the deletes of the scale-down loop (one per integer
`i` with `spec.Number ≤ i < number of nodes it observes`, none when it
observes at most `spec.Number` nodes), and then only fetches, `/spec`
patches and `/status` patches of nodes named `<ns>-<name>-<j>` with
`0 ≤ j < spec.Number`. -/
theorem idempotence (p : NodePackage) (req : NamespacedName) (st : Store)
    (sim : NodeSimulator)
    (hget : (storeClient.GetSim req st).1 = .ok sim)
    (hts : sim.DeletionTimestamp = none) :
    (∀ c ∈ (pass p req (pass p req st).2.api).2.calls,
      c.isCreate = false ∧ c.isUpdate = false) ∧
    ∃ t : List Call,
      (pass p req (pass p req st).2.api).2.calls
        = [Call.GetSim req, Call.List (matchingLabels p sim)]
            ++ (match (storeClient.List (matchingLabels p sim) (pass p req st).2.api).1 with
                | .ok (some obs) =>
                  if (obs.length : Int) > sim.Spec.Number then
                    (loopRange sim.Spec.Number obs.length).map
                      (fun i => Call.Delete { Node.zero with Name := nodeName sim i })
                  else []
                | _ => [])
            ++ t ∧
      ∀ c ∈ t, ∃ (j : Nat) (n : Node), (j : Int) < sim.Spec.Number ∧
        n.Name = nodeName sim (j : Int) ∧
        (c = Call.GetNode ⟨n.Namespace, n.Name⟩ ∨
          c = Call.Patch n ⟨[⟨"replace", "/spec", n.Spec⟩]⟩ ∨
          c = Call.StatusPatch n ⟨[⟨"replace", "/status", n.Status⟩]⟩) := by
  obtain ⟨t, hcalls, ht⟩ := second_pass_shape p req st sim hget hts
  refine ⟨?_, t, hcalls, ht⟩
  intro c hc
  rw [hcalls] at hc
  simp only [List.mem_append, List.mem_cons, List.mem_singleton, List.not_mem_nil,
    or_false] at hc
  rcases hc with ((h | h) | h) | h
  · subst h; exact ⟨rfl, rfl⟩
  · subst h; exact ⟨rfl, rfl⟩
  · have hd := scaleDownCalls_isDelete _ _ c h
    cases c <;> simp_all [Call.isDelete, Call.isCreate, Call.isUpdate]
  · obtain ⟨j, n, -, -, h1 | h1 | h1⟩ := ht c h <;> subst h1 <;> exact ⟨rfl, rfl⟩

/-- C4 (amended), at the resource `default/sim1` with a desired count of 2
in a store with no node. -/
theorem idempotence_witness :
    (∀ c ∈ (pass samplePackage sampleReq
        (pass samplePackage sampleReq ⟨[sampleSim none none 2], []⟩).2.api).2.calls,
      c.isCreate = false ∧ c.isUpdate = false) ∧
    ∃ t : List Call,
      (pass samplePackage sampleReq
        (pass samplePackage sampleReq ⟨[sampleSim none none 2], []⟩).2.api).2.calls
        = [Call.GetSim sampleReq, Call.List (matchingLabels samplePackage (sampleSim none none 2))]
            ++ (match (storeClient.List (matchingLabels samplePackage (sampleSim none none 2))
                  (pass samplePackage sampleReq ⟨[sampleSim none none 2], []⟩).2.api).1 with
                | .ok (some obs) =>
                  if (obs.length : Int) > (sampleSim none none 2).Spec.Number then
                    (loopRange (sampleSim none none 2).Spec.Number obs.length).map
                      (fun i => Call.Delete
                        { Node.zero with Name := nodeName (sampleSim none none 2) i })
                  else []
                | _ => [])
            ++ t ∧
      ∀ c ∈ t, ∃ (j : Nat) (n : Node), (j : Int) < (sampleSim none none 2).Spec.Number ∧
        n.Name = nodeName (sampleSim none none 2) (j : Int) ∧
        (c = Call.GetNode ⟨n.Namespace, n.Name⟩ ∨
          c = Call.Patch n ⟨[⟨"replace", "/spec", n.Spec⟩]⟩ ∨
          c = Call.StatusPatch n ⟨[⟨"replace", "/status", n.Status⟩]⟩) :=
  idempotence samplePackage sampleReq ⟨[sampleSim none none 2], []⟩ (sampleSim none none 2)
    rfl rfl

end NodeSim
